import Mathlib

/-!
Verification of the room loader (`src/room_loader.cpp`) of the Coiil level
geometry compiler: classification of meshes, convex brush construction,
sharp-edge beveling, and the embedded formula mini-language.

Floating-point arithmetic on derived quantities (normals, plane offsets) is
embedded as exact real arithmetic.  Raw vertex coordinates coming from the
importer are embedded as rationals: every float value is an exact rational,
and the loader only ever copies and compares raw vertex coordinates (it never
combines them before using them as map keys), so comparisons on those copies
coincide with rational comparisons.
-/

namespace Coiil

/-- Modelled from the spec: a raw mesh vertex `Vertex{x,y,z: float}` as
produced by the external importer.  Coordinates are exact rationals. -/
structure Vertex where
  x : ℚ
  y : ℚ
  z : ℚ
deriving DecidableEq, Repr

/-- Modelled from the spec: a triangle `Triangle{i1,i2,i3: index into
vertices}`. -/
structure Face where
  i1 : Nat
  i2 : Nat
  i3 : Nat
deriving DecidableEq, Repr

/-- Modelled from the spec: a named mesh: `name`, `vertices`, `faces`. -/
structure Mesh where
  name : String
  vertices : List Vertex
  faces : List Face
deriving DecidableEq, Repr

/-- Modelled from the spec: the geometry primitive `Vector3f`, embedded with
exact real components. -/
structure Vector3f where
  x : ℝ
  y : ℝ
  z : ℝ

noncomputable instance : Add Vector3f := ⟨fun a b => ⟨a.x + b.x, a.y + b.y, a.z + b.z⟩⟩

noncomputable instance : Sub Vector3f := ⟨fun a b => ⟨a.x - b.x, a.y - b.y, a.z - b.z⟩⟩

/-- Modelled from the spec: dot product of two `Vector3f`. -/
noncomputable def dotProduct (a b : Vector3f) : ℝ :=
  a.x * b.x + a.y * b.y + a.z * b.z

/-- Modelled from the spec: cross product of two `Vector3f`. -/
noncomputable def crossProduct (a b : Vector3f) : Vector3f :=
  ⟨a.y * b.z - a.z * b.y, a.z * b.x - a.x * b.z, a.x * b.y - a.y * b.x⟩

/-- Modelled from the spec: Euclidean magnitude of a `Vector3f`. -/
noncomputable def magnitude (v : Vector3f) : ℝ :=
  Real.sqrt (v.x ^ 2 + v.y ^ 2 + v.z ^ 2)

/-- Modelled from the spec: `normalize(v)` scales `v` to unit length
(`v / |v|`, componentwise). -/
noncomputable def normalize (v : Vector3f) : Vector3f :=
  ⟨v.x / magnitude v, v.y / magnitude v, v.z / magnitude v⟩

/-- Modelled from the spec: `Plane{normal, offset}`. -/
structure Plane where
  normal : Vector3f
  offset : ℝ

/-- Modelled from the spec: a collision brush, an ordered sequence of planes. -/
structure Convex where
  planes : List Plane

/-- Modelled from the spec: a placed entity record. -/
structure Thing where
  pos : Vector3f
  typeName : String
  config : List (String × String)

/-- Modelled from the spec: an integer 3D position (`Room.start`). -/
structure Vector3i where
  x : ℤ
  y : ℤ
  z : ℤ
deriving DecidableEq, Repr

/-- Modelled from the spec: the `Room` record produced by `loadRoom`. -/
structure Room where
  start : Vector3i
  colliders : List Convex
  things : List Thing

/-- Function `toVector3f` from `room_loader.cpp`: embed a raw vertex into `Vector3f`. -/
noncomputable def toVector3f (v : Vertex) : Vector3f :=
  ⟨(v.x : ℝ), (v.y : ℝ), (v.z : ℝ)⟩

/-- Indexing `mesh.vertices[i]`: vertex at index `i` (in-bounds in all inputs
considered; out-of-bounds indexing is undefined behaviour in the source and is
totalized here with a default vertex). -/
def vtx (mesh : Mesh) (i : Nat) : Vertex :=
  mesh.vertices.getD i ⟨0, 0, 0⟩

/-- Function `computeNormal` from `room_loader.cpp`. -/
noncomputable def computeNormal (mesh : Mesh) (i1 i2 i3 : Nat) : Vector3f :=
  normalize (crossProduct (toVector3f (vtx mesh i2) - toVector3f (vtx mesh i1))
    (toVector3f (vtx mesh i3) - toVector3f (vtx mesh i1)))

/-- The `operator <` on `Vector3f` from `room_loader.cpp` (lexicographic on x, y,
z), applied to raw vertex coordinates, where float comparison is exactly
rational comparison. -/
def vecLt (a b : Vertex) : Bool :=
  if a.x ≠ b.x then decide (a.x < b.x)
  else if a.y ≠ b.y then decide (a.y < b.y)
  else if a.z ≠ b.z then decide (a.z < b.z)
  else false

/-- The `std::min` under `vecLt`: returns `b` exactly when `b < a`. -/
def vmin (a b : Vertex) : Vertex := if vecLt b a then b else a

/-- The `std::max` under `vecLt`: returns `b` exactly when `a < b`. -/
def vmax (a b : Vertex) : Vertex := if vecLt a b then b else a

/-- Struct `EdgeId` from `bevelSharpEdges`: an undirected edge, identified by its two
endpoint positions in canonical (smaller-first) order. -/
structure EdgeId where
  v1 : Vertex
  v2 : Vertex
deriving DecidableEq, Repr

/-- Constructor `EdgeId::mk` from `bevelSharpEdges`. -/
def EdgeId.make (a b : Vertex) : EdgeId := ⟨vmin a b, vmax a b⟩

/-- The `EdgeId::operator <` from `bevelSharpEdges`. -/
def edgeLt (a b : EdgeId) : Bool :=
  if a.v1 ≠ b.v1 then vecLt a.v1 b.v1 else vecLt a.v2 b.v2

/-- One `edges[k].normals.push_back(N)` step on the ordered
`map<EdgeId, EdgeInfo>`: insert the key in sorted position if absent,
otherwise append the normal to the existing entry. -/
noncomputable def insEdge (m : List (EdgeId × List Vector3f)) (k : EdgeId)
    (n : Vector3f) : List (EdgeId × List Vector3f) :=
  match m with
  | [] => [(k, [n])]
  | e :: rest =>
    if edgeLt k e.1 then (k, [n]) :: e :: rest
    else if edgeLt e.1 k then e :: insEdge rest k n
    else (e.1, e.2 ++ [n]) :: rest

/-- The three `(EdgeId, face normal)` contributions of one face, in source
push order (AB, BC, CA). -/
noncomputable def faceContribs (mesh : Mesh) (f : Face) :
    List (EdgeId × Vector3f) :=
  let n := computeNormal mesh f.i1 f.i2 f.i3
  [(EdgeId.make (vtx mesh f.i1) (vtx mesh f.i2), n),
   (EdgeId.make (vtx mesh f.i2) (vtx mesh f.i3), n),
   (EdgeId.make (vtx mesh f.i3) (vtx mesh f.i1), n)]

/-- All edge contributions of a mesh, in the order the source pushes them. -/
noncomputable def allContribs (mesh : Mesh) : List (EdgeId × Vector3f) :=
  mesh.faces.flatMap (faceContribs mesh)

/-- The edge index built by the first loop of `bevelSharpEdges`: a
`map<EdgeId, EdgeInfo>` accumulating, per undirected edge, the normals of the
faces touching it. -/
noncomputable def edgeMap (mesh : Mesh) : List (EdgeId × List Vector3f) :=
  (allContribs mesh).foldl (fun m p => insEdge m p.1 p.2) []

/-- The body of the second loop of `bevelSharpEdges` for one edge entry:
`none` when the entry is skipped (non-manifold count, or `dot(N1,N2) > 0`),
otherwise the bevel plane `Plane{N3, D}` with `N3 = normalize(N1+N2)` and
`D = dot(N3, v1)`. -/
noncomputable def bevelOf (e : EdgeId × List Vector3f) : Option Plane :=
  match e.2 with
  | [n1, n2] =>
    if 0 < dotProduct n1 n2 then none
    else
      some ⟨normalize (n1 + n2),
        dotProduct (normalize (n1 + n2)) (toVector3f e.1.v1)⟩
  | _ => none

/-- Function `bevelSharpEdges` from `room_loader.cpp`: append a bevel plane to the
brush for every sharp manifold edge of the mesh. -/
noncomputable def bevelSharpEdges (mesh : Mesh) (brush : Convex) : Convex :=
  (edgeMap mesh).foldl
    (fun b e =>
      match bevelOf e with
      | none => b
      | some p => ⟨b.planes ++ [p]⟩)
    brush

/-- The plane the brush-building loop of `loadRoom` pushes for one face. -/
noncomputable def facePlane (mesh : Mesh) (f : Face) : Plane :=
  ⟨computeNormal mesh f.i1 f.i2 f.i3,
   dotProduct (computeNormal mesh f.i1 f.i2 f.i3) (toVector3f (vtx mesh f.i1))⟩

/-- The brush-building loop of `loadRoom` (one plane pushed per face). -/
noncomputable def buildBrush (mesh : Mesh) : Convex :=
  mesh.faces.foldl (fun b f => ⟨b.planes ++ [facePlane mesh f]⟩) ⟨[]⟩

/-- The collider `loadRoom` appends for a collision-geometry mesh. -/
noncomputable def colliderOf (mesh : Mesh) : Convex :=
  bevelSharpEdges mesh (buildBrush mesh)

/-! ### The formula mini-language parser (`parseCall` / `parseFormula`)

The parser walks a NUL-terminated C string; we model the remaining stream as
a `List Char`, the terminating NUL being the empty list (`head()` at the end
reads `'\0'` and `accept` never advances there).  The `while(!accept('"'))`
loop of `parseString` makes no progress once the stream is exhausted, so the
recursion is modelled with explicit fuel: a `none` result means the
computation has not finished within the given fuel, and divergence is "`none`
for every fuel". -/

/-- The character class of `parseIdentifier`:
`isalnum(c) || c == '_' || c == '-'`. -/
def identChar (c : Char) : Bool :=
  c.isAlphanum || c = '_' || c = '-'

/-- Lambda `parseIdentifier` from `parseCall`: consume the maximal prefix of
identifier characters, returning it with the remaining stream.  (At the end
of the stream `head()` is `'\0'`, which is not an identifier character.) -/
def parseIdentifier (s : List Char) : List Char × List Char :=
  match s with
  | [] => ([], [])
  | c :: rest =>
    if identChar c then
      let p := parseIdentifier rest
      (c :: p.1, p.2)
    else ([], c :: rest)

/-- Lambda `parseString` from `parseCall` (called after the opening quote was
consumed): loop until `accept('"')` succeeds, appending `head()` each pass.
Once the stream is exhausted, `accept` fails and `head()` keeps returning
`'\0'` without the stream advancing, so the loop never exits: that is exactly
the case where every fuel yields `none`. -/
def parseStringF : Nat → List Char → Option (List Char × List Char)
  | 0, _ => none
  | fuel + 1, s =>
    match s with
    | [] => (parseStringF fuel []).map (fun p => ('\x00' :: p.1, p.2))
    | c :: rest =>
      if c = '"' then some ([], rest)
      else (parseStringF fuel rest).map (fun p => (c :: p.1, p.2))

/-- Lambda `parseArgument` from `parseCall`: a quoted string if the head is `'"'`
(consuming the quote), otherwise an identifier. -/
def parseArgumentF (fuel : Nat) (s : List Char) : Option (List Char × List Char) :=
  match s with
  | c :: rest => if c = '"' then parseStringF fuel rest else some (parseIdentifier s)
  | [] => some (parseIdentifier [])

/-- The `while(!accept(')'))` argument-list loop of `parseCall`, entered
after the opening parenthesis was consumed.  `first` records whether an
argument has already been read (a `','` is expected before every argument but
the first); the loop throws (`some (.error _)`) when the expected `','` is
absent, and checks for the closing parenthesis at the top of every pass. -/
def parseArgsF : Nat → Bool → List Char → Option (Except String (List (List Char)))
  | 0, _, _ => none
  | fuel + 1, first, s =>
    match s with
    | [] =>
      if first then
        match parseArgumentF fuel [] with
        | none => none
        | some (arg, rest) =>
          (parseArgsF fuel false rest).map (Except.map (fun args => arg :: args))
      else some (.error "expected comma")
    | c :: rest1 =>
      if c = ')' then some (.ok [])
      else if first then
        match parseArgumentF fuel (c :: rest1) with
        | none => none
        | some (arg, rest) =>
          (parseArgsF fuel false rest).map (Except.map (fun args => arg :: args))
      else if c = ',' then
        match parseArgumentF fuel rest1 with
        | none => none
        | some (arg, rest) =>
          (parseArgsF fuel false rest).map (Except.map (fun args => arg :: args))
      else some (.error "expected comma")

/-- Function `parseCall` from `room_loader.cpp`: an identifier, optionally followed by
a parenthesised argument list.  Anything after the argument list (or after an
identifier not followed by `'('`) is ignored, exactly as in the source.  The
result is the token list `[name, arg0, arg1, ...]`.  `none` models
non-termination. -/
def parseCallF (fuel : Nat) (s : List Char) : Option (Except String (List String)) :=
  let p := parseIdentifier s
  match p.2 with
  | c :: rest =>
    if c = '(' then
      (parseArgsF fuel true rest).map
        (Except.map (fun args => ⟨p.1⟩ :: args.map (fun a => (⟨a⟩ : String))))
    else some (.ok [⟨p.1⟩])
  | [] => some (.ok [⟨p.1⟩])

/-- Lexicographic byte order on character lists: `std::string::operator <`. -/
def lexLt : List Char → List Char → Bool
  | [], [] => false
  | [], _ :: _ => true
  | _ :: _, [] => false
  | a :: as, b :: bs =>
    if a.toNat < b.toNat then true
    else if b.toNat < a.toNat then false
    else lexLt as bs

/-- One `r[key] = value` step on an ordered `map<string, string>`: insert the
key in sorted position if absent, otherwise overwrite the mapped value. -/
def mapInsert (m : List (String × String)) (k v : String) : List (String × String) :=
  match m with
  | [] => [(k, v)]
  | e :: rest =>
    if lexLt k.toList e.1.toList then (k, v) :: e :: rest
    else if lexLt e.1.toList k.toList then e :: mapInsert rest k v
    else (k, v) :: rest

/-- The accumulation loop of `parseFormula`:
`for (varValue : words) r[to_string(i++)] = varValue`. -/
def configFold (i : Nat) (args : List String) (m : List (String × String)) :
    List (String × String) :=
  match args with
  | [] => m
  | a :: rest => configFold (i + 1) rest (mapInsert m (Nat.repr i) a)

/-- Function `parseFormula` from `room_loader.cpp`: split `parseCall`'s token list into
the type name (first token) and the positional config map
`to_string(i) -> words[i+1]`.  (`parseCall` always returns at least one
token; the empty-list branch is unreachable.) -/
def parseFormulaF (fuel : Nat) (formula : String) :
    Option (Except String (String × List (String × String))) :=
  (parseCallF fuel formula.toList).map (Except.map (fun ws =>
    match ws with
    | [] => ("", [])
    | w :: args => (w, configFold 0 args [])))

/-! ### `loadRoom` -/

/-- Function `startsWith` from `room_loader.cpp`:
`s.substr(0, prefix.size()) == prefix`. -/
def nameStarts (s p : String) : Bool :=
  s.toList.take p.toList.length = p.toList

/-- C++ float-to-int conversion (`r.start.x = pos.x` narrows `float` to
`int`): truncation toward zero. -/
def ratTrunc (q : ℚ) : ℤ :=
  if 0 ≤ q then ⌊q⌋ else ⌈q⌉

/-- The position read by the `f.start` branch: the first vertex referenced by
the mesh's first triangle. -/
def startVertex (mesh : Mesh) : Vertex :=
  vtx mesh (mesh.faces.getD 0 ⟨0, 0, 0⟩).i1

/-- The spawn point the `f.start` branch writes into `Room.start`
(componentwise float-to-int narrowing of the marker vertex). -/
def startOf (mesh : Mesh) : Vector3i :=
  ⟨ratTrunc (startVertex mesh).x, ratTrunc (startVertex mesh).y,
   ratTrunc (startVertex mesh).z⟩

/-- The centroid loop of the `f.` branch: sum all vertex positions, then
scale by `1.0 / mesh.vertices.size()`. -/
noncomputable def meanPos (mesh : Mesh) : Vector3f :=
  let s := mesh.vertices.foldl (fun acc v => acc + toVector3f v) ⟨0, 0, 0⟩
  ⟨s.x * (1 / (mesh.vertices.length : ℝ)), s.y * (1 / (mesh.vertices.length : ℝ)),
   s.z * (1 / (mesh.vertices.length : ℝ))⟩

/-- The body of the `for (mesh : meshes)` loop of `loadRoom` for one mesh:
classify the mesh by name and update the room.  `none` models
non-termination of the formula parser; `some (.error _)` a thrown parse
error. -/
noncomputable def processMesh (fuel : Nat) (r : Room) (mesh : Mesh) :
    Option (Except String Room) :=
  if mesh.vertices = [] then some (.ok r)
  else if nameStarts mesh.name "f.start" then
    some (.ok { r with start := startOf mesh })
  else if nameStarts mesh.name "nocollide." then some (.ok r)
  else if nameStarts mesh.name "f." then
    (parseFormulaF fuel (⟨mesh.name.toList.drop 2⟩ : String)).map (Except.map
      (fun tc => { r with things := r.things ++ [⟨meanPos mesh, tc.1, tc.2⟩] }))
  else some (.ok { r with colliders := r.colliders ++ [colliderOf mesh] })

/-- The mesh loop of `loadRoom`, threading the room being built.  A thrown
parse error aborts the load. -/
noncomputable def loadRoomAux (fuel : Nat) (r : Room) :
    List Mesh → Option (Except String Room)
  | [] => some (.ok r)
  | m :: ms =>
    match processMesh fuel r m with
    | none => none
    | some (.error e) => some (.error e)
    | some (.ok r2) => loadRoomAux fuel r2 ms

/-- Function `loadRoom` from `room_loader.cpp`, as a function of the imported mesh
list (the external importer is out of scope).  The room starts with the
default spawn point `(0, 0, 2)`. -/
noncomputable def loadRoomF (fuel : Nat) (meshes : List Mesh) :
    Option (Except String Room) :=
  loadRoomAux fuel ⟨⟨0, 0, 2⟩, [], []⟩ meshes

/-! ### Spec-side characterizations of the classifier -/

/-- A mesh the classifier routes to the `f.start` branch: non-empty vertex
list and name starting with `"f.start"`. -/
def isStart (m : Mesh) : Bool :=
  m.vertices ≠ [] && nameStarts m.name "f.start"

/-- A mesh the classifier routes to the entity-placement branch. -/
def isThing (m : Mesh) : Bool :=
  m.vertices ≠ [] && !nameStarts m.name "f.start" &&
    !nameStarts m.name "nocollide." && nameStarts m.name "f."

/-- A mesh the classifier routes to collision geometry (no recognized
prefix). -/
def isCollision (m : Mesh) : Bool :=
  m.vertices ≠ [] && !nameStarts m.name "f.start" &&
    !nameStarts m.name "nocollide." && !nameStarts m.name "f."

/-- The `Thing` produced for an entity-placement mesh, when its formula
parses. -/
noncomputable def thingOfF (fuel : Nat) (m : Mesh) : Option Thing :=
  if isThing m then
    match parseFormulaF fuel (⟨m.name.toList.drop 2⟩ : String) with
    | some (.ok tc) => some ⟨meanPos m, tc.1, tc.2⟩
    | _ => none
  else none

/-- The spawn point after processing a mesh list, starting from `s`: each
`f.start` mesh overwrites it. -/
def startFold (meshes : List Mesh) (s : Vector3i) : Vector3i :=
  meshes.foldl (fun acc m => if isStart m then startOf m else acc) s

/-! ### Spec-side characterizations of the edge index -/

/-- Association-list lookup on the edge index. -/
noncomputable def lookupEdge (k : EdgeId) :
    List (EdgeId × List Vector3f) → Option (List Vector3f)
  | [] => none
  | e :: rest => if e.1 = k then some e.2 else lookupEdge k rest

/-- The incident face normals of an undirected edge, stated independently of
the map construction: the normals of all face-edge contributions whose
canonical edge id is `k`, in face order. -/
noncomputable def incidentNormals (mesh : Mesh) (k : EdgeId) : List Vector3f :=
  ((allContribs mesh).filter (fun p => p.1 = k)).map (fun p => p.2)

/-- Association-list lookup on the config map (`map<string,string>`). -/
def lookupStr (k : String) : List (String × String) → Option String
  | [] => none
  | e :: rest => if e.1 = k then some e.2 else lookupStr k rest

/-- The numeric value of a decimal digit string (used to show that
`Nat.repr`, the model of `std::to_string`, is injective). -/
def natVal (ds : List Char) : Nat :=
  ds.foldl (fun a c => a * 10 + (c.toNat - 48)) 0

/-! ### Concrete example meshes -/

/-- A single collision triangle in the plane `z = 0`. -/
def triMesh : Mesh :=
  ⟨"wall", [⟨0, 0, 0⟩, ⟨1, 0, 0⟩, ⟨0, 1, 0⟩], [⟨0, 1, 2⟩]⟩

/-- Two triangles meeting at a right angle along the shared edge from
`(0,0,0)` to `(1,0,0)`: a minimal collision mesh with one sharp manifold
edge. -/
def twoTriMesh : Mesh :=
  ⟨"wall2", [⟨0, 0, 0⟩, ⟨1, 0, 0⟩, ⟨0, 1, 0⟩, ⟨0, 0, 1⟩],
   [⟨0, 1, 2⟩, ⟨0, 3, 1⟩]⟩

/-- An axis-aligned unit cube: each of the 6 faces split into 2 coplanar
triangles (quad `(a,b,c,d)` split as `(a,b,c)`, `(a,c,d)`), 12 triangles in
all. -/
def cubeMesh : Mesh :=
  ⟨"cube",
   [⟨0, 0, 0⟩, ⟨1, 0, 0⟩, ⟨0, 1, 0⟩, ⟨1, 1, 0⟩,
    ⟨0, 0, 1⟩, ⟨1, 0, 1⟩, ⟨0, 1, 1⟩, ⟨1, 1, 1⟩],
   [⟨0, 1, 3⟩, ⟨0, 3, 2⟩, ⟨4, 6, 7⟩, ⟨4, 7, 5⟩,
    ⟨0, 4, 5⟩, ⟨0, 5, 1⟩, ⟨2, 3, 7⟩, ⟨2, 7, 6⟩,
    ⟨0, 2, 6⟩, ⟨0, 6, 4⟩, ⟨1, 5, 7⟩, ⟨1, 7, 3⟩]⟩

/-- A spawn-marker mesh at `(1, 1, 1)`. -/
def startMeshA : Mesh := ⟨"f.start", [⟨1, 1, 1⟩], [⟨0, 0, 0⟩]⟩

/-- A second spawn-marker mesh, at `(5, 6, 7)`. -/
def startMeshB : Mesh := ⟨"f.start.b", [⟨5, 6, 7⟩], [⟨0, 0, 0⟩]⟩

/-- An entity-placement mesh `f.door(3)` with two vertices. -/
def doorMesh : Mesh := ⟨"f.door(3)", [⟨1, 2, 3⟩, ⟨3, 4, 5⟩], [⟨0, 1, 0⟩]⟩

/-- A mesh whose name opens a `'('` that is never closed, with the `'('`
reachable by the parser: `f.door(3`. -/
def badParenMesh : Mesh := ⟨"f.door(3", [⟨0, 0, 0⟩], []⟩

/-- A mesh whose name opens a `'('` that is never closed, but only after a
character (a space) that stops the identifier scan: `f.door x(3`. -/
def spaceParenMesh : Mesh := ⟨"f.door x(3", [⟨2, 2, 2⟩], [⟨0, 0, 0⟩]⟩

/-- A mesh whose formula contains an unterminated quoted string. -/
def hangMesh : Mesh := ⟨"f.x(\"abc", [⟨0, 0, 0⟩], []⟩

/-! ## Lemmas: the vertex / edge orders -/

theorem vecLt_iff (a b : Vertex) :
    vecLt a b = true ↔
      a.x < b.x ∨ (a.x = b.x ∧ (a.y < b.y ∨ (a.y = b.y ∧ a.z < b.z))) := by
  unfold vecLt
  by_cases h1 : a.x = b.x <;> by_cases h2 : a.y = b.y <;> by_cases h3 : a.z = b.z <;>
    simp [h1, h2, h3, lt_irrefl]

theorem vecLt_irrefl (a : Vertex) : vecLt a a = false := by
  simp [vecLt]

theorem vecLt_asymm {a b : Vertex} (h : vecLt a b = true) : vecLt b a = false := by
  rw [vecLt_iff] at h
  by_contra hc
  rw [Bool.not_eq_false, vecLt_iff] at hc
  rcases h with h | ⟨he, h⟩ <;> rcases hc with hc | ⟨hce, hc⟩
  · exact absurd (lt_trans h hc) (lt_irrefl _)
  · exact absurd h (by rw [hce]; exact lt_irrefl _)
  · exact absurd hc (by rw [he]; exact lt_irrefl _)
  · rcases h with h | ⟨he2, h⟩ <;> rcases hc with hc | ⟨hce2, hc⟩
    · exact absurd (lt_trans h hc) (lt_irrefl _)
    · exact absurd h (by rw [hce2]; exact lt_irrefl _)
    · exact absurd hc (by rw [he2]; exact lt_irrefl _)
    · exact absurd (lt_trans h hc) (lt_irrefl _)

theorem vecLt_trans {a b c : Vertex} (h1 : vecLt a b = true)
    (h2 : vecLt b c = true) : vecLt a c = true := by
  rw [vecLt_iff] at h1 h2 ⊢
  rcases h1 with h1 | ⟨e1, h1⟩ <;> rcases h2 with h2 | ⟨e2, h2⟩
  · exact Or.inl (lt_trans h1 h2)
  · exact Or.inl (e2 ▸ h1)
  · exact Or.inl (by rw [e1]; exact h2)
  · refine Or.inr ⟨e1.trans e2, ?_⟩
    rcases h1 with h1 | ⟨f1, h1⟩ <;> rcases h2 with h2 | ⟨f2, h2⟩
    · exact Or.inl (lt_trans h1 h2)
    · exact Or.inl (f2 ▸ h1)
    · exact Or.inl (by rw [f1]; exact h2)
    · exact Or.inr ⟨f1.trans f2, lt_trans h1 h2⟩

theorem vecLt_eq_of {a b : Vertex} (h1 : vecLt a b = false)
    (h2 : vecLt b a = false) : a = b := by
  have n1 : ¬(a.x < b.x ∨ (a.x = b.x ∧ (a.y < b.y ∨ (a.y = b.y ∧ a.z < b.z)))) := by
    rw [← vecLt_iff]; simp [h1]
  have n2 : ¬(b.x < a.x ∨ (b.x = a.x ∧ (b.y < a.y ∨ (b.y = a.y ∧ b.z < a.z)))) := by
    rw [← vecLt_iff]; simp [h2]
  have hx : a.x = b.x :=
    le_antisymm (le_of_not_lt fun h => n2 (Or.inl h))
      (le_of_not_lt fun h => n1 (Or.inl h))
  have hy : a.y = b.y :=
    le_antisymm (le_of_not_lt fun h => n2 (Or.inr ⟨hx.symm, Or.inl h⟩))
      (le_of_not_lt fun h => n1 (Or.inr ⟨hx, Or.inl h⟩))
  have hz : a.z = b.z :=
    le_antisymm (le_of_not_lt fun h => n2 (Or.inr ⟨hx.symm, Or.inr ⟨hy.symm, h⟩⟩))
      (le_of_not_lt fun h => n1 (Or.inr ⟨hx, Or.inr ⟨hy, h⟩⟩))
  cases a; cases b; simp_all

theorem edgeLt_iff (a b : EdgeId) :
    edgeLt a b = true ↔
      vecLt a.v1 b.v1 = true ∨ (a.v1 = b.v1 ∧ vecLt a.v2 b.v2 = true) := by
  unfold edgeLt
  by_cases h : a.v1 = b.v1
  · simp [h, vecLt_irrefl]
  · simp [h]

theorem edgeLt_irrefl (a : EdgeId) : edgeLt a a = false := by
  simp [edgeLt, vecLt_irrefl]

theorem edgeLt_trans {a b c : EdgeId} (h1 : edgeLt a b = true)
    (h2 : edgeLt b c = true) : edgeLt a c = true := by
  rw [edgeLt_iff] at h1 h2 ⊢
  rcases h1 with h1 | ⟨e1, h1⟩ <;> rcases h2 with h2 | ⟨e2, h2⟩
  · exact Or.inl (vecLt_trans h1 h2)
  · exact Or.inl (e2 ▸ h1)
  · exact Or.inl (by rw [e1]; exact h2)
  · exact Or.inr ⟨e1.trans e2, vecLt_trans h1 h2⟩

theorem edgeLt_eq_of {a b : EdgeId} (h1 : edgeLt a b = false)
    (h2 : edgeLt b a = false) : a = b := by
  have n1 : ¬(vecLt a.v1 b.v1 = true ∨ (a.v1 = b.v1 ∧ vecLt a.v2 b.v2 = true)) := by
    rw [← edgeLt_iff]; simp [h1]
  have n2 : ¬(vecLt b.v1 a.v1 = true ∨ (b.v1 = a.v1 ∧ vecLt b.v2 a.v2 = true)) := by
    rw [← edgeLt_iff]; simp [h2]
  have l1 : vecLt a.v1 b.v1 = false := by
    cases hb : vecLt a.v1 b.v1
    · rfl
    · exact absurd (Or.inl hb) n1
  have l2 : vecLt b.v1 a.v1 = false := by
    cases hb : vecLt b.v1 a.v1
    · rfl
    · exact absurd (Or.inl hb) n2
  have hv1 : a.v1 = b.v1 := vecLt_eq_of l1 l2
  have m1 : vecLt a.v2 b.v2 = false := by
    cases hb : vecLt a.v2 b.v2
    · rfl
    · exact absurd (Or.inr ⟨hv1, hb⟩) n1
  have m2 : vecLt b.v2 a.v2 = false := by
    cases hb : vecLt b.v2 a.v2
    · rfl
    · exact absurd (Or.inr ⟨hv1.symm, hb⟩) n2
  have hv2 : a.v2 = b.v2 := vecLt_eq_of m1 m2
  cases a; cases b; simp_all

/-! ## Lemmas: correctness of the edge index (`map<EdgeId, EdgeInfo>`) -/

theorem keys_insEdge (m : List (EdgeId × List Vector3f)) (k : EdgeId)
    (n : Vector3f) (x : EdgeId) :
    x ∈ (insEdge m k n).map Prod.fst ↔ x = k ∨ x ∈ m.map Prod.fst := by
  induction m with
  | nil => simp [insEdge]
  | cons e rest ih =>
    unfold insEdge
    by_cases h1 : edgeLt k e.1
    · simp [h1]
    · by_cases h2 : edgeLt e.1 k
      · simp [h1, h2, ih]
        tauto
      · have hk : k = e.1 :=
          edgeLt_eq_of (Bool.not_eq_true _ ▸ h1) (Bool.not_eq_true _ ▸ h2)
        subst hk
        simp [h1, h2]

theorem pw_insEdge {m : List (EdgeId × List Vector3f)} (k : EdgeId)
    (n : Vector3f)
    (h : (m.map Prod.fst).Pairwise (fun a b => edgeLt a b = true)) :
    ((insEdge m k n).map Prod.fst).Pairwise (fun a b => edgeLt a b = true) := by
  induction m with
  | nil => simp [insEdge]
  | cons e rest ih =>
    simp only [List.map_cons, List.pairwise_cons] at h
    unfold insEdge
    by_cases h1 : edgeLt k e.1 = true
    · rw [if_pos h1]
      simp only [List.map_cons, List.pairwise_cons]
      refine ⟨?_, h.1, h.2⟩
      intro b hb
      simp only [List.mem_cons] at hb
      rcases hb with hb | hb
      · exact hb ▸ h1
      · exact edgeLt_trans h1 (h.1 b hb)
    · rw [if_neg h1]
      by_cases h2 : edgeLt e.1 k = true
      · rw [if_pos h2]
        simp only [List.map_cons, List.pairwise_cons]
        refine ⟨?_, ih h.2⟩
        intro b hb
        rw [keys_insEdge] at hb
        rcases hb with hb | hb
        · exact hb ▸ h2
        · exact h.1 b hb
      · rw [if_neg h2]
        simp only [List.map_cons, List.pairwise_cons]
        exact ⟨h.1, h.2⟩

theorem lookupEdge_eq_none (k : EdgeId) (m : List (EdgeId × List Vector3f)) :
    lookupEdge k m = none ↔ k ∉ m.map Prod.fst := by
  induction m with
  | nil => simp [lookupEdge]
  | cons e rest ih =>
    unfold lookupEdge
    by_cases h : e.1 = k
    · simp [h]
    · rw [if_neg h, ih]
      simp only [List.map_cons, List.mem_cons]
      constructor
      · intro hn hc
        rcases hc with hc | hc
        · exact h hc.symm
        · exact hn hc
      · intro hn hc
        exact hn (Or.inr hc)

theorem lookupEdge_of_mem {m : List (EdgeId × List Vector3f)}
    {e : EdgeId × List Vector3f}
    (hpw : (m.map Prod.fst).Pairwise (fun a b => edgeLt a b = true))
    (hm : e ∈ m) : lookupEdge e.1 m = some e.2 := by
  induction m with
  | nil => simp at hm
  | cons h2 rest ih =>
    simp only [List.map_cons, List.pairwise_cons] at hpw
    rcases List.mem_cons.1 hm with hm | hm
    · subst hm
      simp [lookupEdge]
    · have hne : h2.1 ≠ e.1 := by
        intro heq
        have := hpw.1 e.1 (List.mem_map_of_mem Prod.fst hm)
        rw [heq] at this
        exact absurd this (by simp [edgeLt_irrefl])
      unfold lookupEdge
      rw [if_neg hne]
      exact ih hpw.2 hm

theorem getD_insEdge (m : List (EdgeId × List Vector3f)) (k : EdgeId)
    (n : Vector3f) (k2 : EdgeId)
    (hpw : (m.map Prod.fst).Pairwise (fun a b => edgeLt a b = true)) :
    (lookupEdge k2 (insEdge m k n)).getD [] =
      (lookupEdge k2 m).getD [] ++ (if k2 = k then [n] else []) := by
  induction m with
  | nil =>
    by_cases h : k2 = k
    · subst h
      simp [insEdge, lookupEdge]
    · have hs : ¬(k = k2) := fun hh => h hh.symm
      simp [insEdge, lookupEdge, h, hs]
  | cons e rest ih =>
    simp only [List.map_cons, List.pairwise_cons] at hpw
    unfold insEdge
    by_cases h1 : edgeLt k e.1 = true
    · rw [if_pos h1]
      by_cases h : k2 = k
      · subst h
        have hnone : lookupEdge k2 (e :: rest) = none := by
          rw [lookupEdge_eq_none]
          intro hmem
          simp only [List.map_cons, List.mem_cons] at hmem
          rcases hmem with hmem | hmem
          · rw [hmem] at h1
            exact absurd h1 (by simp [edgeLt_irrefl])
          · exact absurd (edgeLt_trans h1 (hpw.1 k2 hmem))
              (by simp [edgeLt_irrefl])
        rw [hnone]
        unfold lookupEdge
        simp
      · have hs : ¬(k = k2) := fun hh => h hh.symm
        conv =>
          lhs
          unfold lookupEdge
        rw [if_neg hs, if_neg h, List.append_nil]
    · rw [if_neg h1]
      by_cases h2 : edgeLt e.1 k = true
      · rw [if_pos h2]
        have hne : e.1 ≠ k := by
          intro heq
          rw [heq] at h2
          exact absurd h2 (by simp [edgeLt_irrefl])
        by_cases h3 : e.1 = k2
        · have hne2 : ¬(k2 = k) := fun hh => hne (h3.trans hh)
          conv =>
            lhs
            unfold lookupEdge
          conv =>
            rhs
            unfold lookupEdge
          rw [if_pos h3, if_pos h3, if_neg hne2, List.append_nil]
        · conv =>
            lhs
            unfold lookupEdge
          conv =>
            rhs
            unfold lookupEdge
          rw [if_neg h3, if_neg h3]
          exact ih hpw.2
      · have hk : k = e.1 :=
          edgeLt_eq_of (Bool.not_eq_true _ ▸ h1) (Bool.not_eq_true _ ▸ h2)
        subst hk
        rw [if_neg h2]
        by_cases h3 : e.1 = k2
        · conv =>
            lhs
            unfold lookupEdge
          conv =>
            rhs
            unfold lookupEdge
          rw [if_pos h3, if_pos h3, if_pos h3.symm]
          simp
        · have hne2 : ¬(k2 = e.1) := fun hh => h3 hh.symm
          conv =>
            lhs
            unfold lookupEdge
          conv =>
            rhs
            unfold lookupEdge
          rw [if_neg h3, if_neg h3, if_neg hne2, List.append_nil]

theorem foldl_insEdge_pw (contribs : List (EdgeId × Vector3f))
    (m : List (EdgeId × List Vector3f))
    (hpw : (m.map Prod.fst).Pairwise (fun a b => edgeLt a b = true)) :
    ((contribs.foldl (fun m p => insEdge m p.1 p.2) m).map Prod.fst).Pairwise
      (fun a b => edgeLt a b = true) := by
  induction contribs generalizing m with
  | nil => exact hpw
  | cons p rest ih => exact ih _ (pw_insEdge p.1 p.2 hpw)

theorem foldl_insEdge_getD (contribs : List (EdgeId × Vector3f))
    (m : List (EdgeId × List Vector3f)) (k : EdgeId)
    (hpw : (m.map Prod.fst).Pairwise (fun a b => edgeLt a b = true)) :
    (lookupEdge k (contribs.foldl (fun m p => insEdge m p.1 p.2) m)).getD [] =
      (lookupEdge k m).getD [] ++
        ((contribs.filter (fun p => p.1 = k)).map Prod.snd) := by
  induction contribs generalizing m with
  | nil => simp
  | cons p rest ih =>
    simp only [List.foldl_cons]
    rw [ih _ (pw_insEdge p.1 p.2 hpw), getD_insEdge _ _ _ _ hpw]
    by_cases h : p.1 = k
    · rw [List.filter_cons_of_pos (by simp [h])]
      simp [h, List.append_assoc]
    · rw [List.filter_cons_of_neg (by simp [h])]
      have : ¬(k = p.1) := fun hh => h hh.symm
      simp [this]

theorem foldl_insEdge_mem (contribs : List (EdgeId × Vector3f))
    (m : List (EdgeId × List Vector3f)) (k : EdgeId) :
    k ∈ ((contribs.foldl (fun m p => insEdge m p.1 p.2) m).map Prod.fst) ↔
      k ∈ m.map Prod.fst ∨ k ∈ contribs.map Prod.fst := by
  induction contribs generalizing m with
  | nil => simp
  | cons p rest ih =>
    simp only [List.foldl_cons, List.map_cons, List.mem_cons]
    rw [ih, keys_insEdge]
    tauto

theorem foldl_insEdge_vals_ne (contribs : List (EdgeId × Vector3f))
    (m : List (EdgeId × List Vector3f))
    (hne : ∀ e ∈ m, e.2 ≠ []) :
    ∀ e ∈ contribs.foldl (fun m p => insEdge m p.1 p.2) m, e.2 ≠ [] := by
  induction contribs generalizing m with
  | nil => exact hne
  | cons p rest ih =>
    refine ih _ ?_
    intro e he
    clear ih
    induction m with
    | nil =>
      simp only [insEdge, List.mem_singleton] at he
      subst he
      simp
    | cons q qs ihm =>
      unfold insEdge at he
      by_cases h1 : edgeLt p.1 q.1 = true
      · rw [if_pos h1] at he
        rcases List.mem_cons.1 he with h | h
        · subst h; simp
        · exact hne e h
      · rw [if_neg h1] at he
        by_cases h2 : edgeLt q.1 p.1 = true
        · rw [if_pos h2] at he
          rcases List.mem_cons.1 he with h | h
          · exact h ▸ hne q (by simp)
          · exact ihm (fun x hx => hne x (List.mem_cons_of_mem _ hx)) h
        · rw [if_neg h2] at he
          rcases List.mem_cons.1 he with h | h
          · subst h; simp
          · exact hne e (List.mem_cons_of_mem _ h)

theorem edgeMap_pw (mesh : Mesh) :
    ((edgeMap mesh).map Prod.fst).Pairwise (fun a b => edgeLt a b = true) :=
  foldl_insEdge_pw _ _ (by simp)

theorem edgeMap_val {mesh : Mesh} {e : EdgeId × List Vector3f}
    (he : e ∈ edgeMap mesh) : e.2 = incidentNormals mesh e.1 := by
  have hl := lookupEdge_of_mem (edgeMap_pw mesh) he
  have hv := foldl_insEdge_getD (allContribs mesh) [] e.1 (by simp)
  unfold edgeMap at hl
  rw [hl] at hv
  simpa [incidentNormals, lookupEdge] using hv

theorem edgeMap_mem_iff (mesh : Mesh) (k : EdgeId) :
    k ∈ (edgeMap mesh).map Prod.fst ↔ incidentNormals mesh k ≠ [] := by
  constructor
  · intro hk
    rcases List.mem_map.1 hk with ⟨e, he, hek⟩
    have hv := edgeMap_val he
    have hne := foldl_insEdge_vals_ne (allContribs mesh) [] (by simp) e he
    rw [hv, hek] at hne
    exact hne
  · intro hne
    have : ∃ p ∈ allContribs mesh, p.1 = k := by
      by_contra hc
      push_neg at hc
      have : (allContribs mesh).filter (fun p => p.1 = k) = [] :=
        List.filter_eq_nil_iff.2 (by
          intro p hp
          simpa using hc p hp)
      exact hne (by simp [incidentNormals, this])
    rcases this with ⟨p, hp, hpk⟩
    exact (foldl_insEdge_mem _ _ _).2 (Or.inr (List.mem_map.2 ⟨p, hp, hpk⟩))

theorem edge_key_canonical {mesh : Mesh} {e : EdgeId × List Vector3f}
    (he : e ∈ edgeMap mesh) : vecLt e.1.v2 e.1.v1 = false := by
  have hk : e.1 ∈ (edgeMap mesh).map Prod.fst := List.mem_map_of_mem Prod.fst he
  unfold edgeMap at hk
  rw [foldl_insEdge_mem] at hk
  rcases hk with hk | hk
  · simp at hk
  · rcases List.mem_map.1 hk with ⟨p, hp, hpk⟩
    have : ∃ a b, p.1 = EdgeId.make a b := by
      unfold allContribs at hp
      rcases List.mem_flatMap.1 hp with ⟨f, _, hpf⟩
      simp only [faceContribs, List.mem_cons, List.not_mem_nil, or_false] at hpf
      rcases hpf with h | h | h <;> exact ⟨_, _, by rw [h]⟩
    rcases this with ⟨a, b, hab⟩
    rw [← hpk, hab]
    unfold EdgeId.make vmin vmax
    by_cases h1 : vecLt b a = true
    · rw [if_pos h1]
      by_cases h2 : vecLt a b = true
      · exact absurd (vecLt_asymm h1) (by simp [h2])
      · rw [if_neg h2]
        exact vecLt_asymm h1
    · rw [if_neg h1]
      by_cases h2 : vecLt a b = true
      · rw [if_pos h2]
        exact vecLt_asymm h2
      · rw [if_neg h2]
        exact vecLt_irrefl a

/-! ## Lemmas: the bevel and brush folds -/

theorem bevelFold (l : List (EdgeId × List Vector3f)) (b : Convex) :
    (l.foldl
      (fun b e =>
        match bevelOf e with
        | none => b
        | some p => ⟨b.planes ++ [p]⟩)
      b).planes = b.planes ++ l.filterMap bevelOf := by
  induction l generalizing b with
  | nil => simp
  | cons e rest ih =>
    simp only [List.foldl_cons, List.filterMap_cons]
    cases hb : bevelOf e with
    | none => simp [ih]
    | some p => simp [ih, List.append_assoc]

theorem bevelSharpEdges_planes (mesh : Mesh) (brush : Convex) :
    (bevelSharpEdges mesh brush).planes =
      brush.planes ++ (edgeMap mesh).filterMap bevelOf :=
  bevelFold _ _

theorem buildBrush_planes (mesh : Mesh) :
    (buildBrush mesh).planes = mesh.faces.map (facePlane mesh) := by
  unfold buildBrush
  have aux : ∀ (fs : List Face) (b : Convex),
      (fs.foldl (fun b f => ⟨b.planes ++ [facePlane mesh f]⟩) b).planes =
        b.planes ++ fs.map (facePlane mesh) := by
    intro fs
    induction fs with
    | nil => simp
    | cons f rest ih =>
      intro b
      simp [ih, List.append_assoc]
  simpa using aux mesh.faces ⟨[]⟩

/-! ## Lemmas: the mesh loop of `loadRoom` -/

theorem loadRoomAux_cons (fuel : Nat) (r0 : Room) (m : Mesh) (ms : List Mesh)
    (r2 : Room) (hp : processMesh fuel r0 m = some (.ok r2)) :
    loadRoomAux fuel r0 (m :: ms) = loadRoomAux fuel r2 ms := by
  have hstep : loadRoomAux fuel r0 (m :: ms) =
      match processMesh fuel r0 m with
      | none => none
      | some (.error e) => some (.error e)
      | some (.ok r2) => loadRoomAux fuel r2 ms := rfl
  rw [hstep, hp]

theorem loadRoomAux_ok (fuel : Nat) :
    ∀ (ms : List Mesh) (r0 r : Room),
      loadRoomAux fuel r0 ms = some (.ok r) →
      r.start = startFold ms r0.start ∧
      r.colliders = r0.colliders ++ (ms.filter isCollision).map colliderOf ∧
      r.things = r0.things ++ ms.filterMap (thingOfF fuel) ∧
      (∀ m ∈ ms, isThing m = true →
        ∃ tc, parseFormulaF fuel (⟨m.name.toList.drop 2⟩ : String) =
          some (.ok tc)) := by
  intro ms
  induction ms with
  | nil =>
    intro r0 r h
    unfold loadRoomAux at h
    have hr : r0 = r := by
      have := Option.some.inj h
      exact Except.ok.inj this
    subst hr
    simp [startFold]
  | cons m ms ih =>
    intro r0 r h
    by_cases hv : m.vertices = []
    · have hp : processMesh fuel r0 m = some (.ok r0) := by
        unfold processMesh
        rw [if_pos hv]
      rw [loadRoomAux_cons fuel r0 m ms r0 hp] at h
      obtain ⟨h1, h2, h3, h4⟩ := ih r0 r h
      have hs : isStart m = false := by simp [isStart, hv]
      have ht : isThing m = false := by simp [isThing, hv]
      have hc : isCollision m = false := by simp [isCollision, hv]
      refine ⟨?_, ?_, ?_, ?_⟩
      · rw [h1]
        unfold startFold
        simp [hs]
      · rw [h2, List.filter_cons_of_neg (by simp [hc])]
      · rw [h3, List.filterMap_cons_none (by simp [thingOfF, ht])]
      · intro m2 hm2 hthing
        rcases List.mem_cons.1 hm2 with hm2 | hm2
        · rw [hm2] at hthing
          rw [hthing] at ht
          exact absurd ht (by simp)
        · exact h4 m2 hm2 hthing
    · by_cases hfs : nameStarts m.name "f.start" = true
      · have hp : processMesh fuel r0 m =
            some (.ok { r0 with start := startOf m }) := by
          unfold processMesh
          rw [if_neg hv, if_pos hfs]
        rw [loadRoomAux_cons fuel r0 m ms _ hp] at h
        obtain ⟨h1, h2, h3, h4⟩ := ih _ r h
        have hs : isStart m = true := by simp [isStart, hv, hfs]
        have ht : isThing m = false := by simp [isThing, hfs]
        have hc : isCollision m = false := by simp [isCollision, hfs]
        refine ⟨?_, ?_, ?_, ?_⟩
        · rw [h1]
          unfold startFold
          simp [hs]
        · rw [h2, List.filter_cons_of_neg (by simp [hc])]
        · rw [h3, List.filterMap_cons_none (by simp [thingOfF, ht])]
        · intro m2 hm2 hthing
          rcases List.mem_cons.1 hm2 with hm2 | hm2
          · rw [hm2] at hthing
            rw [hthing] at ht
            exact absurd ht (by simp)
          · exact h4 m2 hm2 hthing
      · by_cases hnc : nameStarts m.name "nocollide." = true
        · have hp : processMesh fuel r0 m = some (.ok r0) := by
            unfold processMesh
            rw [if_neg hv, if_neg hfs, if_pos hnc]
          rw [loadRoomAux_cons fuel r0 m ms r0 hp] at h
          obtain ⟨h1, h2, h3, h4⟩ := ih r0 r h
          have hs : isStart m = false := by simp [isStart, hfs]
          have ht : isThing m = false := by simp [isThing, hnc]
          have hc : isCollision m = false := by simp [isCollision, hnc]
          refine ⟨?_, ?_, ?_, ?_⟩
          · rw [h1]
            unfold startFold
            simp [hs]
          · rw [h2, List.filter_cons_of_neg (by simp [hc])]
          · rw [h3, List.filterMap_cons_none (by simp [thingOfF, ht])]
          · intro m2 hm2 hthing
            rcases List.mem_cons.1 hm2 with hm2 | hm2
            · rw [hm2] at hthing
              rw [hthing] at ht
              exact absurd ht (by simp)
            · exact h4 m2 hm2 hthing
        · by_cases hf : nameStarts m.name "f." = true
          · cases hparse : parseFormulaF fuel (⟨m.name.toList.drop 2⟩ : String) with
            | none =>
              have hp : processMesh fuel r0 m = none := by
                unfold processMesh
                rw [if_neg hv, if_neg hfs, if_neg hnc, if_pos hf, hparse]
                rfl
              unfold loadRoomAux at h
              rw [hp] at h
              exact absurd h (by simp)
            | some res =>
              cases res with
              | error err =>
                have hp : processMesh fuel r0 m = some (.error err) := by
                  unfold processMesh
                  rw [if_neg hv, if_neg hfs, if_neg hnc, if_pos hf, hparse]
                  rfl
                unfold loadRoomAux at h
                rw [hp] at h
                simp at h
              | ok tc =>
                have hp : processMesh fuel r0 m = some (.ok
                    { r0 with things := r0.things ++ [⟨meanPos m, tc.1, tc.2⟩] }) := by
                  unfold processMesh
                  rw [if_neg hv, if_neg hfs, if_neg hnc, if_pos hf, hparse]
                  rfl
                rw [loadRoomAux_cons fuel r0 m ms _ hp] at h
                obtain ⟨h1, h2, h3, h4⟩ := ih _ r h
                have hs : isStart m = false := by simp [isStart, hfs]
                have ht : isThing m = true := by simp [isThing, hv, hfs, hnc, hf]
                have hc : isCollision m = false := by simp [isCollision, hf]
                have hth : thingOfF fuel m = some ⟨meanPos m, tc.1, tc.2⟩ := by
                  unfold thingOfF
                  rw [if_pos ht, hparse]
                refine ⟨?_, ?_, ?_, ?_⟩
                · rw [h1]
                  unfold startFold
                  simp [hs]
                · rw [h2, List.filter_cons_of_neg (by simp [hc])]
                · rw [h3, List.filterMap_cons_some hth]
                  simp
                · intro m2 hm2 hthing
                  rcases List.mem_cons.1 hm2 with hm2 | hm2
                  · subst hm2
                    exact ⟨tc, hparse⟩
                  · exact h4 m2 hm2 hthing
          · have hp : processMesh fuel r0 m = some (.ok
                { r0 with colliders := r0.colliders ++ [colliderOf m] }) := by
              unfold processMesh
              rw [if_neg hv, if_neg hfs, if_neg hnc, if_neg hf]
            rw [loadRoomAux_cons fuel r0 m ms _ hp] at h
            obtain ⟨h1, h2, h3, h4⟩ := ih _ r h
            have hs : isStart m = false := by simp [isStart, hfs]
            have ht : isThing m = false := by simp [isThing, hf]
            have hc : isCollision m = true := by
              simp [isCollision, hv, hfs, hnc, hf]
            refine ⟨?_, ?_, ?_, ?_⟩
            · rw [h1]
              unfold startFold
              simp [hs]
            · rw [h2, List.filter_cons_of_pos (by simp [hc])]
              simp
            · rw [h3, List.filterMap_cons_none (by simp [thingOfF, ht])]
            · intro m2 hm2 hthing
              rcases List.mem_cons.1 hm2 with hm2 | hm2
              · rw [hm2] at hthing
                rw [hthing] at ht
                exact absurd ht (by simp)
              · exact h4 m2 hm2 hthing

/-! ## Lemmas: vector algebra for face planes -/

@[simp] theorem vadd_x (a b : Vector3f) : (a + b).x = a.x + b.x := rfl

@[simp] theorem vadd_y (a b : Vector3f) : (a + b).y = a.y + b.y := rfl

@[simp] theorem vadd_z (a b : Vector3f) : (a + b).z = a.z + b.z := rfl

@[simp] theorem vsub_x (a b : Vector3f) : (a - b).x = a.x - b.x := rfl

@[simp] theorem vsub_y (a b : Vector3f) : (a - b).y = a.y - b.y := rfl

@[simp] theorem vsub_z (a b : Vector3f) : (a - b).z = a.z - b.z := rfl

@[simp] theorem cross_x (a b : Vector3f) :
    (crossProduct a b).x = a.y * b.z - a.z * b.y := rfl

@[simp] theorem cross_y (a b : Vector3f) :
    (crossProduct a b).y = a.z * b.x - a.x * b.z := rfl

@[simp] theorem cross_z (a b : Vector3f) :
    (crossProduct a b).z = a.x * b.y - a.y * b.x := rfl

theorem dotProduct_normalize (w v : Vector3f) :
    dotProduct (normalize w) v = dotProduct w v / magnitude w := by
  unfold dotProduct normalize
  dsimp only
  rw [div_mul_eq_mul_div, div_mul_eq_mul_div, div_mul_eq_mul_div,
    div_add_div_same, div_add_div_same]

theorem cross_dot_left (u v : Vector3f) : dotProduct (crossProduct u v) u = 0 := by
  unfold dotProduct
  simp only [cross_x, cross_y, cross_z]
  ring

theorem cross_dot_right (u v : Vector3f) : dotProduct (crossProduct u v) v = 0 := by
  unfold dotProduct
  simp only [cross_x, cross_y, cross_z]
  ring

theorem dot_sub (w a b : Vector3f) :
    dotProduct w (a - b) = dotProduct w a - dotProduct w b := by
  unfold dotProduct
  simp only [vsub_x, vsub_y, vsub_z]
  ring

theorem sumsq_ne_zero {w : Vector3f} (h : ¬(w.x = 0 ∧ w.y = 0 ∧ w.z = 0)) :
    w.x ^ 2 + w.y ^ 2 + w.z ^ 2 ≠ 0 := by
  intro hc
  have hx : w.x = 0 := by nlinarith [sq_nonneg w.x, sq_nonneg w.y, sq_nonneg w.z]
  have hy : w.y = 0 := by nlinarith [sq_nonneg w.x, sq_nonneg w.y, sq_nonneg w.z]
  have hz : w.z = 0 := by nlinarith [sq_nonneg w.x, sq_nonneg w.y, sq_nonneg w.z]
  exact h ⟨hx, hy, hz⟩

theorem magnitude_normalize {w : Vector3f}
    (h : w.x ^ 2 + w.y ^ 2 + w.z ^ 2 ≠ 0) : magnitude (normalize w) = 1 := by
  have hS : 0 < w.x ^ 2 + w.y ^ 2 + w.z ^ 2 :=
    lt_of_le_of_ne (by positivity) (Ne.symm h)
  have hm : 0 < magnitude w := Real.sqrt_pos.2 hS
  have hm2 : magnitude w ^ 2 = w.x ^ 2 + w.y ^ 2 + w.z ^ 2 :=
    Real.sq_sqrt hS.le
  unfold normalize magnitude
  dsimp only
  rw [div_pow, div_pow, div_pow, div_add_div_same, div_add_div_same]
  unfold magnitude at hm2
  rw [hm2, div_self h, Real.sqrt_one]

/-! ## Lemmas: injectivity of `Nat.repr` (the model of `std::to_string`) -/

theorem digitChar_toNat {k : Nat} (h : k < 10) :
    (Nat.digitChar k).toNat = 48 + k := by
  interval_cases k <;> rfl

theorem natVal_append_singleton (l : List Char) (c : Char) :
    natVal (l ++ [c]) = natVal l * 10 + (c.toNat - 48) := by
  unfold natVal
  rw [List.foldl_append]
  rfl

theorem toDigitsCore_spec :
    ∀ (f n : Nat) (ds : List Char), n < f →
      ∃ pre, pre ≠ [] ∧ Nat.toDigitsCore 10 f n ds = pre ++ ds ∧
        natVal pre = n := by
  intro f
  induction f with
  | zero => exact fun n ds h => absurd h (Nat.not_lt_zero n)
  | succ f ih =>
    intro n ds h
    by_cases h0 : n / 10 = 0
    · refine ⟨[Nat.digitChar (n % 10)], by simp, ?_, ?_⟩
      · show Nat.toDigitsCore 10 (f + 1) n ds = _
        unfold Nat.toDigitsCore
        rw [if_pos h0]
        rfl
      · have hn : n % 10 = n := by omega
        unfold natVal
        simp only [List.foldl_cons, List.foldl_nil]
        rw [digitChar_toNat (by omega)]
        omega
    · have hlt : n / 10 < f := by omega
      obtain ⟨pre, hne, heq, hval⟩ := ih (n / 10) (Nat.digitChar (n % 10) :: ds) hlt
      refine ⟨pre ++ [Nat.digitChar (n % 10)], by simp, ?_, ?_⟩
      · show Nat.toDigitsCore 10 (f + 1) n ds = _
        unfold Nat.toDigitsCore
        rw [if_neg h0]
        rw [heq, List.append_assoc]
        rfl
      · rw [natVal_append_singleton, hval, digitChar_toNat (by omega)]
        omega

theorem repr_inj {n m : Nat} (h : Nat.repr n = Nat.repr m) : n = m := by
  obtain ⟨p1, _, he1, hv1⟩ := toDigitsCore_spec (n + 1) n [] (by omega)
  obtain ⟨p2, _, he2, hv2⟩ := toDigitsCore_spec (m + 1) m [] (by omega)
  unfold Nat.repr Nat.toDigits at h
  rw [he1, he2] at h
  simp only [List.append_nil] at h
  have hp : p1 = p2 := by
    have := congrArg String.toList h
    simpa [List.asString, String.toList] using this
  rw [← hv1, ← hv2, hp]

/-! ## Lemmas: the config map (`map<string,string>`) -/

theorem char_toNat_inj {a b : Char} (h : a.toNat = b.toNat) : a = b := by
  have := congrArg Char.ofNat h
  rwa [Char.ofNat_toNat, Char.ofNat_toNat] at this

theorem strToList_inj {s t : String} (h : s.toList = t.toList) : s = t := by
  cases s
  cases t
  exact congrArg String.mk h

theorem lexLt_irrefl : ∀ x : List Char, lexLt x x = false
  | [] => rfl
  | c :: rest => by
    unfold lexLt
    rw [if_neg (lt_irrefl _), if_neg (lt_irrefl _)]
    exact lexLt_irrefl rest

theorem lexLt_eq_of : ∀ {x y : List Char},
    lexLt x y = false → lexLt y x = false → x = y := by
  intro x
  induction x with
  | nil =>
    intro y h1 _
    cases y with
    | nil => rfl
    | cons b bs => exact absurd h1 (by simp [lexLt])
  | cons a as ih =>
    intro y h1 h2
    cases y with
    | nil => exact absurd h2 (by simp [lexLt])
    | cons b bs =>
      unfold lexLt at h1 h2
      by_cases hab : a.toNat < b.toNat
      · rw [if_pos hab] at h1
        exact absurd h1 (by simp)
      · rw [if_neg hab] at h1
        by_cases hba : b.toNat < a.toNat
        · rw [if_pos hba] at h2
          exact absurd h2 (by simp)
        · rw [if_neg hba] at h1
          rw [if_neg hba, if_neg hab] at h2
          have hc : a = b := char_toNat_inj (by omega)
          rw [hc, ih h1 h2]

theorem lexLt_trans : ∀ {x y z : List Char},
    lexLt x y = true → lexLt y z = true → lexLt x z = true := by
  intro x
  induction x with
  | nil =>
    intro y z h1 h2
    cases y with
    | nil => exact absurd h1 (by simp [lexLt])
    | cons b bs =>
      cases z with
      | nil => exact absurd h2 (by simp [lexLt])
      | cons c cs => simp [lexLt]
  | cons a as ih =>
    intro y z h1 h2
    cases y with
    | nil => exact absurd h1 (by simp [lexLt])
    | cons b bs =>
      cases z with
      | nil => exact absurd h2 (by simp [lexLt])
      | cons c cs =>
        unfold lexLt at h1 h2 ⊢
        by_cases hab : a.toNat < b.toNat <;> by_cases hbc : b.toNat < c.toNat
        · rw [if_pos (by omega)]
        · rw [if_neg hbc] at h2
          by_cases hcb : c.toNat < b.toNat
          · rw [if_pos hcb] at h2
            exact absurd h2 (by simp)
          · rw [if_pos (by omega)]
        · rw [if_neg hab] at h1
          by_cases hba : b.toNat < a.toNat
          · rw [if_pos hba] at h1
            exact absurd h1 (by simp)
          · rw [if_pos (by omega)]
        · rw [if_neg hab] at h1
          by_cases hba : b.toNat < a.toNat
          · rw [if_pos hba] at h1
            exact absurd h1 (by simp)
          · rw [if_neg hba] at h1
            rw [if_neg hbc] at h2
            by_cases hcb : c.toNat < b.toNat
            · rw [if_pos hcb] at h2
              exact absurd h2 (by simp)
            · rw [if_neg hcb] at h2
              rw [if_neg (by omega), if_neg (by omega)]
              exact ih h1 h2

theorem lookupStr_mapInsert (m : List (String × String)) (k v : String)
    (k2 : String) :
    lookupStr k2 (mapInsert m k v) =
      if k2 = k then some v else lookupStr k2 m := by
  induction m with
  | nil =>
    by_cases h : k2 = k
    · subst h
      simp [mapInsert, lookupStr]
    · have hs : ¬(k = k2) := fun hh => h hh.symm
      simp [mapInsert, lookupStr, h, hs]
  | cons e rest ih =>
    unfold mapInsert
    by_cases h1 : lexLt k.toList e.1.toList = true
    · rw [if_pos h1]
      by_cases h : k2 = k
      · subst h
        unfold lookupStr
        rw [if_pos rfl, if_pos rfl]
      · have hs : ¬(k = k2) := fun hh => h hh.symm
        rw [if_neg h]
        conv =>
          lhs
          unfold lookupStr
        rw [if_neg hs]
    · rw [if_neg h1]
      by_cases h2 : lexLt e.1.toList k.toList = true
      · rw [if_pos h2]
        have hne : e.1 ≠ k := by
          intro heq
          rw [heq] at h2
          exact absurd h2 (by simp [lexLt_irrefl])
        by_cases h3 : e.1 = k2
        · have hne2 : ¬(k2 = k) := fun hh => hne (h3.trans hh)
          rw [if_neg hne2]
          unfold lookupStr
          rw [if_pos h3, if_pos h3]
        · unfold lookupStr
          rw [if_neg h3, if_neg h3, ih]
      · have hk : e.1 = k :=
          strToList_inj (lexLt_eq_of (Bool.not_eq_true _ ▸ h2)
            (Bool.not_eq_true _ ▸ h1))
        rw [if_neg h2]
        by_cases h3 : k2 = k
        · subst h3
          simp [lookupStr]
        · have hns : ¬(k = k2) := fun hh => h3 hh.symm
          rw [if_neg h3]
          simp [lookupStr, hk, hns]

theorem keys_mapInsert (m : List (String × String)) (k v : String)
    (x : String) :
    x ∈ (mapInsert m k v).map Prod.fst ↔ x = k ∨ x ∈ m.map Prod.fst := by
  induction m with
  | nil => simp [mapInsert]
  | cons e rest ih =>
    unfold mapInsert
    by_cases h1 : lexLt k.toList e.1.toList = true
    · rw [if_pos h1]
      simp
    · rw [if_neg h1]
      by_cases h2 : lexLt e.1.toList k.toList = true
      · rw [if_pos h2]
        simp only [List.map_cons, List.mem_cons, ih]
        tauto
      · have hk : e.1 = k :=
          strToList_inj (lexLt_eq_of (Bool.not_eq_true _ ▸ h2)
            (Bool.not_eq_true _ ▸ h1))
        rw [if_neg h2]
        simp [hk]

theorem pw_mapInsert {m : List (String × String)} (k v : String)
    (h : (m.map Prod.fst).Pairwise (fun a b => lexLt a.toList b.toList = true)) :
    ((mapInsert m k v).map Prod.fst).Pairwise
      (fun a b => lexLt a.toList b.toList = true) := by
  induction m with
  | nil => simp [mapInsert]
  | cons e rest ih =>
    simp only [List.map_cons, List.pairwise_cons] at h
    unfold mapInsert
    by_cases h1 : lexLt k.toList e.1.toList = true
    · rw [if_pos h1]
      simp only [List.map_cons, List.pairwise_cons]
      refine ⟨?_, h.1, h.2⟩
      intro b hb
      simp only [List.mem_cons] at hb
      rcases hb with hb | hb
      · exact hb ▸ h1
      · exact lexLt_trans h1 (h.1 b hb)
    · rw [if_neg h1]
      by_cases h2 : lexLt e.1.toList k.toList = true
      · rw [if_pos h2]
        simp only [List.map_cons, List.pairwise_cons]
        refine ⟨?_, ih h.2⟩
        intro b hb
        rw [keys_mapInsert] at hb
        rcases hb with hb | hb
        · exact hb ▸ h2
        · exact h.1 b hb
      · have hk : e.1 = k :=
          strToList_inj (lexLt_eq_of (Bool.not_eq_true _ ▸ h2)
            (Bool.not_eq_true _ ▸ h1))
        rw [if_neg h2]
        simp only [List.map_cons, List.pairwise_cons]
        exact ⟨fun b hb => hk ▸ h.1 b hb, h.2⟩

theorem length_mapInsert {m : List (String × String)} (k v : String)
    (hpw : (m.map Prod.fst).Pairwise (fun a b => lexLt a.toList b.toList = true))
    (hnk : k ∉ m.map Prod.fst) :
    (mapInsert m k v).length = m.length + 1 := by
  induction m with
  | nil => simp [mapInsert]
  | cons e rest ih =>
    simp only [List.map_cons, List.pairwise_cons] at hpw
    simp only [List.map_cons, List.mem_cons] at hnk
    push_neg at hnk
    unfold mapInsert
    by_cases h1 : lexLt k.toList e.1.toList = true
    · rw [if_pos h1]
      simp
    · rw [if_neg h1]
      by_cases h2 : lexLt e.1.toList k.toList = true
      · rw [if_pos h2]
        simp only [List.length_cons]
        rw [ih hpw.2 hnk.2]
      · have hk : e.1 = k :=
          strToList_inj (lexLt_eq_of (Bool.not_eq_true _ ▸ h2)
            (Bool.not_eq_true _ ▸ h1))
        exact absurd hk.symm hnk.1

theorem configFold_lookup_notin :
    ∀ (args : List String) (i : Nat) (m : List (String × String)) (k : String),
      (∀ j, i ≤ j → k ≠ Nat.repr j) →
      lookupStr k (configFold i args m) = lookupStr k m := by
  intro args
  induction args with
  | nil => intro i m k _; rfl
  | cons a rest ih =>
    intro i m k hk
    unfold configFold
    rw [ih (i + 1) (mapInsert m (Nat.repr i) a) k (fun j hj => hk j (by omega)),
      lookupStr_mapInsert, if_neg (hk i (le_refl i))]

theorem configFold_get :
    ∀ (args : List String) (i : Nat) (m : List (String × String)) (j : Nat),
      j < args.length →
      lookupStr (Nat.repr (i + j)) (configFold i args m) =
        some (args.getD j "") := by
  intro args
  induction args with
  | nil => intro i m j h; simp at h
  | cons a rest ih =>
    intro i m j hj
    unfold configFold
    cases j with
    | zero =>
      rw [configFold_lookup_notin rest (i + 1) _ _
        (fun j2 hj2 heq => by
          have := repr_inj heq
          omega)]
      rw [lookupStr_mapInsert, if_pos (by rw [Nat.add_zero])]
      rfl
    | succ j2 =>
      have : i + (j2 + 1) = (i + 1) + j2 := by omega
      rw [this, ih (i + 1) _ j2 (by simpa using hj)]
      rfl

theorem configFold_length :
    ∀ (args : List String) (i : Nat) (m : List (String × String)),
      ((m.map Prod.fst).Pairwise (fun a b => lexLt a.toList b.toList = true)) →
      (∀ j, i ≤ j → Nat.repr j ∉ m.map Prod.fst) →
      (configFold i args m).length = m.length + args.length := by
  intro args
  induction args with
  | nil => intro i m _ _; simp [configFold]
  | cons a rest ih =>
    intro i m hpw hnk
    unfold configFold
    rw [ih (i + 1) _ (pw_mapInsert _ _ hpw)
      (fun j hj => by
        rw [keys_mapInsert]
        push_neg
        exact ⟨fun heq => by have := repr_inj heq; omega,
          hnk j (by omega)⟩)]
    rw [length_mapInsert _ _ hpw (hnk i (le_refl i))]
    simp only [List.length_cons]
    omega

/-! ## Lemmas: the formula parser -/

theorem parseStringF_no_quote :
    ∀ (fuel : Nat) (s : List Char), '"' ∉ s → parseStringF fuel s = none := by
  intro fuel
  induction fuel with
  | zero => intro s _; rfl
  | succ f ih =>
    intro s hq
    cases s with
    | nil =>
      simp only [parseStringF]
      rw [ih [] (by simp)]
      rfl
    | cons c rest =>
      simp only [parseStringF]
      rw [if_neg (by
        intro hc
        exact hq (hc ▸ List.mem_cons_self c rest))]
      rw [ih rest (fun hr => hq (List.mem_cons_of_mem c hr))]
      rfl

theorem parseIdentifier_sfx : ∀ s : List Char, (parseIdentifier s).2 <:+ s := by
  intro s
  induction s with
  | nil => exact List.suffix_refl []
  | cons c rest ih =>
    simp only [parseIdentifier]
    by_cases h : identChar c = true
    · rw [if_pos h]
      exact ih.trans (List.suffix_cons c rest)
    · rw [if_neg h]

theorem parseIdentifier_all (id rest : List Char)
    (h : ∀ c ∈ id, identChar c = true) :
    parseIdentifier (id ++ '(' :: rest) = (id, '(' :: rest) := by
  induction id with
  | nil =>
    rw [List.nil_append]
    simp only [parseIdentifier]
    rw [if_neg (by decide)]
  | cons c cs ih =>
    rw [List.cons_append]
    simp only [parseIdentifier]
    rw [if_pos (h c (by simp))]
    rw [show parseIdentifier (cs ++ '(' :: rest) = (cs, '(' :: rest) from
      ih (fun c2 hc2 => h c2 (by simp [hc2]))]

theorem parseArgumentF_clean (fuel : Nat) (s : List Char)
    (h : ∀ c ∈ s, c ≠ '"') :
    parseArgumentF fuel s = some (parseIdentifier s) := by
  cases s with
  | nil => rfl
  | cons c rest =>
    simp only [parseArgumentF]
    rw [if_neg (h c (by simp))]

theorem parseArgsF_clean_false :
    ∀ (n : Nat) (s : List Char), s.length ≤ n →
      (∀ c ∈ s, c ≠ ')' ∧ c ≠ '"') →
      ∀ (fuel : Nat) (ws : List (List Char)),
        parseArgsF fuel false s ≠ some (.ok ws) := by
  intro n
  induction n with
  | zero =>
    intro s hl hc fuel ws
    have hs : s = [] := List.eq_nil_of_length_eq_zero (Nat.le_zero.1 hl)
    subst hs
    cases fuel with
    | zero => simp [parseArgsF]
    | succ f => simp [parseArgsF]
  | succ n ih =>
    intro s hl hc fuel ws
    cases fuel with
    | zero => simp [parseArgsF]
    | succ f =>
      cases s with
      | nil => simp [parseArgsF]
      | cons c rest1 =>
        have hcp := hc c (by simp)
        simp only [parseArgsF]
        rw [if_neg hcp.1]
        rw [if_neg (by simp)]
        by_cases hcm : c = ','
        · rw [if_pos hcm]
          rcases hpi : parseIdentifier rest1 with ⟨arg, rrest⟩
          rw [parseArgumentF_clean f rest1
            (fun c2 hc2 => (hc c2 (List.mem_cons_of_mem c hc2)).2), hpi]
          intro habs
          simp only at habs
          have hex : ∃ ws2, parseArgsF f false rrest = some (.ok ws2) := by
            cases hp : parseArgsF f false rrest with
            | none => rw [hp] at habs; exact absurd habs (by simp)
            | some res =>
              cases res with
              | error e => rw [hp] at habs; exact absurd habs (by simp [Except.map])
              | ok l => exact ⟨l, rfl⟩
          rcases hex with ⟨ws2, hws2⟩
          refine ih rrest ?_ ?_ f ws2 hws2
          · have hsx := (parseIdentifier_sfx rest1).length_le
            rw [hpi] at hsx
            simp only [List.length_cons] at hl
            simp at hsx
            omega
          · intro c2 hc2
            have hsub := (parseIdentifier_sfx rest1).sublist.subset
            rw [hpi] at hsub
            exact hc c2 (List.mem_cons_of_mem c (hsub hc2))
        · rw [if_neg hcm]
          simp

theorem parseArgsF_clean_true (s : List Char)
    (hc : ∀ c ∈ s, c ≠ ')' ∧ c ≠ '"')
    (fuel : Nat) (ws : List (List Char)) :
    parseArgsF fuel true s ≠ some (.ok ws) := by
  cases fuel with
  | zero => simp [parseArgsF]
  | succ f =>
    cases s with
    | nil =>
      simp only [parseArgsF, parseArgumentF, parseIdentifier]
      rw [if_pos (by trivial)]
      intro habs
      have hex : ∃ ws2, parseArgsF f false [] = some (.ok ws2) := by
        cases hp : parseArgsF f false ([] : List Char) with
        | none => rw [hp] at habs; exact absurd habs (by simp)
        | some res =>
          cases res with
          | error e => rw [hp] at habs; exact absurd habs (by simp [Except.map])
          | ok l => exact ⟨l, rfl⟩
      rcases hex with ⟨ws2, hws2⟩
      exact parseArgsF_clean_false 0 [] (by simp) (by simp) f ws2 hws2
    | cons c rest1 =>
      have hcp := hc c (by simp)
      simp only [parseArgsF]
      rw [if_neg hcp.1, if_pos (by trivial)]
      rcases hpi : parseIdentifier (c :: rest1) with ⟨arg, rrest⟩
      rw [parseArgumentF_clean f (c :: rest1) (fun c2 hc2 => (hc c2 hc2).2), hpi]
      intro habs
      simp only at habs
      have hex : ∃ ws2, parseArgsF f false rrest = some (.ok ws2) := by
        cases hp : parseArgsF f false rrest with
        | none => rw [hp] at habs; exact absurd habs (by simp)
        | some res =>
          cases res with
          | error e => rw [hp] at habs; exact absurd habs (by simp [Except.map])
          | ok l => exact ⟨l, rfl⟩
      rcases hex with ⟨ws2, hws2⟩
      refine parseArgsF_clean_false rrest.length rrest le_rfl ?_ f ws2 hws2
      intro c2 hc2
      have hsub := (parseIdentifier_sfx (c :: rest1)).sublist.subset
      rw [hpi] at hsub
      exact hc c2 (hsub hc2)

theorem parseCallF_no_ok (fuel : Nat) (id rest : List Char)
    (hid : ∀ c ∈ id, identChar c = true)
    (hrest : ∀ c ∈ rest, c ≠ ')' ∧ c ≠ '"')
    (ws : List String) :
    parseCallF fuel (id ++ '(' :: rest) ≠ some (.ok ws) := by
  simp only [parseCallF]
  rw [show parseIdentifier (id ++ '(' :: rest) = (id, '(' :: rest) from
    parseIdentifier_all id rest hid]
  simp only
  rw [if_pos (by trivial)]
  intro habs
  have hex : ∃ ws2, parseArgsF fuel true rest = some (.ok ws2) := by
    cases hp : parseArgsF fuel true rest with
    | none => rw [hp] at habs; exact absurd habs (by simp)
    | some res =>
      cases res with
      | error e => rw [hp] at habs; exact absurd habs (by simp [Except.map])
      | ok l => exact ⟨l, rfl⟩
  rcases hex with ⟨ws2, hws2⟩
  exact parseArgsF_clean_true rest hrest fuel ws2 hws2

theorem isThing_parts {m : Mesh} (h : isThing m = true) :
    m.vertices ≠ [] ∧ nameStarts m.name "f.start" = false ∧
      nameStarts m.name "nocollide." = false ∧ nameStarts m.name "f." = true := by
  simp only [isThing, Bool.and_eq_true, Bool.not_eq_true', decide_eq_true_eq] at h
  exact ⟨h.1.1.1, h.1.1.2, h.1.2, h.2⟩

theorem parseFormulaF_name (fuel : Nat) (m : Mesh) (id rest : List Char)
    (hname : m.name.toList.drop 2 = id ++ '(' :: rest) :
    parseFormulaF fuel (⟨m.name.toList.drop 2⟩ : String) =
      (parseCallF fuel (id ++ '(' :: rest)).map (Except.map (fun ws =>
        match ws with
        | [] => ("", [])
        | w :: args => (w, configFold 0 args []))) := by
  unfold parseFormulaF
  rw [show (⟨m.name.toList.drop 2⟩ : String).toList = m.name.toList.drop 2
    from rfl, hname]

theorem parseArgsF_clean_false_err :
    ∀ (n : Nat) (s : List Char), s.length ≤ n →
      (∀ c ∈ s, c ≠ ')' ∧ c ≠ '"') →
      ∀ fuel : Nat, s.length + 1 ≤ fuel →
        parseArgsF fuel false s = some (.error "expected comma") := by
  intro n
  induction n with
  | zero =>
    intro s hl hc fuel hfuel
    have hs : s = [] := List.eq_nil_of_length_eq_zero (Nat.le_zero.1 hl)
    subst hs
    cases fuel with
    | zero => omega
    | succ f => rfl
  | succ n ih =>
    intro s hl hc fuel hfuel
    cases fuel with
    | zero => omega
    | succ f =>
      cases s with
      | nil => rfl
      | cons c rest1 =>
        have hcp := hc c (by simp)
        simp only [parseArgsF]
        rw [if_neg hcp.1, if_neg (by simp)]
        by_cases hcm : c = ','
        · rw [if_pos hcm]
          rcases hpi : parseIdentifier rest1 with ⟨arg, rrest⟩
          rw [parseArgumentF_clean f rest1
            (fun c2 hc2 => (hc c2 (List.mem_cons_of_mem c hc2)).2), hpi]
          have hlen : rrest.length ≤ rest1.length := by
            have hsx := (parseIdentifier_sfx rest1).length_le
            rw [hpi] at hsx
            simpa using hsx
          have hclean : ∀ c2 ∈ rrest, c2 ≠ ')' ∧ c2 ≠ '"' := by
            intro c2 hc2
            have hsub := (parseIdentifier_sfx rest1).sublist.subset
            rw [hpi] at hsub
            exact hc c2 (List.mem_cons_of_mem c (hsub hc2))
          show (parseArgsF f false rrest).map
            (Except.map fun args => arg :: args) = _
          simp only [List.length_cons] at hl hfuel
          rw [ih rrest (by omega) hclean f (by omega)]
          rfl
        · rw [if_neg hcm]

theorem parseArgsF_clean_true_err (s : List Char)
    (hc : ∀ c ∈ s, c ≠ ')' ∧ c ≠ '"') (fuel : Nat)
    (hfuel : s.length + 2 ≤ fuel) :
    parseArgsF fuel true s = some (.error "expected comma") := by
  cases fuel with
  | zero => omega
  | succ f =>
    cases s with
    | nil =>
      simp only [parseArgsF, parseArgumentF, parseIdentifier]
      rw [if_pos (by trivial)]
      show (parseArgsF f false []).map
        (Except.map fun args => ([] : List Char) :: args) = _
      rw [parseArgsF_clean_false_err 0 [] (by simp) (by simp) f (by omega)]
      rfl
    | cons c rest1 =>
      have hcp := hc c (by simp)
      simp only [parseArgsF]
      rw [if_neg hcp.1, if_pos (by trivial)]
      rcases hpi : parseIdentifier (c :: rest1) with ⟨arg, rrest⟩
      rw [parseArgumentF_clean f (c :: rest1)
        (fun c2 hc2 => (hc c2 hc2).2), hpi]
      have hlen : rrest.length ≤ (c :: rest1).length := by
        have hsx := (parseIdentifier_sfx (c :: rest1)).length_le
        rw [hpi] at hsx
        simpa using hsx
      have hclean : ∀ c2 ∈ rrest, c2 ≠ ')' ∧ c2 ≠ '"' := by
        intro c2 hc2
        have hsub := (parseIdentifier_sfx (c :: rest1)).sublist.subset
        rw [hpi] at hsub
        exact hc c2 (hsub hc2)
      show (parseArgsF f false rrest).map
        (Except.map fun args => arg :: args) = _
      rw [parseArgsF_clean_false_err rrest.length rrest le_rfl hclean f (by
        simp only [List.length_cons] at hfuel hlen
        omega)]
      rfl

theorem parseCallF_err (fuel : Nat) (id rest : List Char)
    (hid : ∀ c ∈ id, identChar c = true)
    (hrest : ∀ c ∈ rest, c ≠ ')' ∧ c ≠ '"')
    (hfuel : rest.length + 2 ≤ fuel) :
    parseCallF fuel (id ++ '(' :: rest) = some (.error "expected comma") := by
  simp only [parseCallF]
  rw [show parseIdentifier (id ++ '(' :: rest) = (id, '(' :: rest) from
    parseIdentifier_all id rest hid]
  simp only
  rw [if_pos (by trivial)]
  rw [parseArgsF_clean_true_err rest hrest fuel hfuel]
  rfl

theorem loadRoomAux_err :
    ∀ (ms : List Mesh) (fuel : Nat) (r0 : Room) (m : Mesh),
      m ∈ ms → isThing m = true →
      ∀ (id rest : List Char),
        m.name.toList.drop 2 = id ++ '(' :: rest →
        (∀ c ∈ id, identChar c = true) →
        (∀ c ∈ rest, c ≠ ')' ∧ c ≠ '"') →
        ∀ res : Except String Room, loadRoomAux fuel r0 ms = some res →
          ∃ e, res = Except.error e := by
  intro ms
  induction ms with
  | nil =>
    intro fuel r0 m hm
    simp at hm
  | cons m0 ms ih =>
    intro fuel r0 m hm hthing id rest hname hid hrest res hres
    have hstep : loadRoomAux fuel r0 (m0 :: ms) =
        match processMesh fuel r0 m0 with
        | none => none
        | some (.error e) => some (.error e)
        | some (.ok r2) => loadRoomAux fuel r2 ms := rfl
    rw [hstep] at hres
    rcases List.mem_cons.1 hm with heq | hm2
    · subst heq
      obtain ⟨hv, hfs, hnc, hf⟩ := isThing_parts hthing
      have hform := parseFormulaF_name fuel m id rest hname
      have hpm : processMesh fuel r0 m =
          ((parseCallF fuel (id ++ '(' :: rest)).map (Except.map (fun ws =>
            match ws with
            | [] => ("", [])
            | w :: args => (w, configFold 0 args [])))).map (Except.map
          (fun tc => { r0 with
            things := r0.things ++ [⟨meanPos m, tc.1, tc.2⟩] })) := by
        unfold processMesh
        rw [if_neg hv, if_neg (by simp [hfs]), if_neg (by simp [hnc]),
          if_pos hf, hform]
      rw [hpm] at hres
      cases hcall : parseCallF fuel (id ++ '(' :: rest) with
      | none =>
        rw [hcall] at hres
        exact absurd hres (by simp)
      | some res2 =>
        cases res2 with
        | error e =>
          rw [hcall] at hres
          simp only [Option.map, Except.map] at hres
          exact ⟨e, (Option.some.inj hres).symm⟩
        | ok ws =>
          exact absurd hcall (by
            intro hcl
            exact parseCallF_no_ok fuel id rest hid hrest ws hcl)
    · cases hp : processMesh fuel r0 m0 with
      | none =>
        rw [hp] at hres
        exact absurd hres (by simp)
      | some res2 =>
        cases res2 with
        | error e =>
          rw [hp] at hres
          exact ⟨e, (Option.some.inj hres).symm⟩
        | ok r2 =>
          rw [hp] at hres
          exact ih fuel r2 m hm2 hthing id rest hname hid hrest res hres

theorem parseArgsF_quote_hang (fuel : Nat) (rest : List Char)
    (hq : '"' ∉ rest) : parseArgsF fuel true ('"' :: rest) = none := by
  cases fuel with
  | zero => rfl
  | succ f =>
    simp only [parseArgsF]
    rw [if_neg (by decide), if_pos (by trivial)]
    rw [show parseArgumentF f ('"' :: rest) = parseStringF f rest from by
      simp only [parseArgumentF]
      rw [if_pos (by trivial)]]
    rw [parseStringF_no_quote f rest hq]

theorem parseCallF_hang (fuel : Nat) :
    parseCallF fuel ("x(\"abc".toList) = none := by
  rw [show "x(\"abc".toList =
    'x' :: '(' :: '"' :: 'a' :: 'b' :: 'c' :: [] from rfl]
  simp only [parseCallF]
  rw [show parseIdentifier ('x' :: '(' :: '"' :: 'a' :: 'b' :: 'c' :: []) =
    (['x'], '(' :: '"' :: 'a' :: 'b' :: 'c' :: []) from rfl]
  simp only
  rw [if_pos (by trivial)]
  rw [parseArgsF_quote_hang fuel ('a' :: 'b' :: 'c' :: []) (by decide)]
  rfl

theorem loadRoomF_hang_aux (fuel : Nat) (r0 : Room) :
    processMesh fuel r0 hangMesh = none := by
  unfold processMesh
  rw [if_neg (by decide), if_neg (by decide), if_neg (by decide),
    if_pos (by decide)]
  rw [show parseFormulaF fuel (⟨hangMesh.name.toList.drop 2⟩ : String) =
      (parseCallF fuel ("x(\"abc".toList)).map (Except.map (fun ws =>
        match ws with
        | [] => ("", [])
        | w :: args => (w, configFold 0 args []))) from rfl]
  rw [parseCallF_hang fuel]
  rfl

theorem startFold_id : ∀ (ms : List Mesh) (s : Vector3i),
    (∀ m ∈ ms, isStart m = false) → startFold ms s = s := by
  intro ms
  induction ms with
  | nil => intro s _; rfl
  | cons m rest ih =>
    intro s h
    unfold startFold
    simp only [List.foldl_cons]
    rw [if_neg (by simp [h m (by simp)])]
    exact ih s (fun m2 hm2 => h m2 (List.mem_cons_of_mem m hm2))

theorem vec_ext {a b : Vector3f} (hx : a.x = b.x) (hy : a.y = b.y)
    (hz : a.z = b.z) : a = b := by
  cases a
  cases b
  simp_all

theorem normalize_unit {v : Vector3f} (h : magnitude v = 1) :
    normalize v = v := by
  unfold normalize
  rw [h]
  simp only [div_one]

/-! ## The claims -/

/-- C1: for every mesh, the edge beveler appends exactly one bevel plane per
undirected edge having exactly two incident face normals `N1, N2` with
`dot(N1,N2) <= 0`, namely `Plane{N3, D}` with `N3 = normalize(N1+N2)` and
`D = dot(N3, v1)` where `v1` is the canonically smaller endpoint; edges with
`dot(N1,N2) > 0` or an incident-face count other than 2 contribute no plane.
Stated as: the planes appended are `filterMap bevelOf` over the edge index;
the edge index has pairwise-distinct keys (one entry per undirected edge),
each entry's normal list is exactly the incident face normals of its edge and
its key is canonically ordered (`v1 <= v2`); an edge id is present exactly
when it has at least one incident face; and `bevelOf` produces the claimed
plane exactly on two-normal entries with non-positive dot product. -/
theorem C1_bevel_edges (mesh : Mesh) (brush : Convex) :
    (bevelSharpEdges mesh brush).planes =
      brush.planes ++ (edgeMap mesh).filterMap bevelOf ∧
    (edgeMap mesh).Pairwise (fun a b => a.1 ≠ b.1) ∧
    (∀ e ∈ edgeMap mesh, e.2 = incidentNormals mesh e.1 ∧
      vecLt e.1.v2 e.1.v1 = false) ∧
    (∀ k : EdgeId, k ∈ (edgeMap mesh).map Prod.fst ↔
      incidentNormals mesh k ≠ []) ∧
    (∀ (e : EdgeId × List Vector3f) (n1 n2 : Vector3f), e.2 = [n1, n2] →
      bevelOf e = if 0 < dotProduct n1 n2 then none else
        some ⟨normalize (n1 + n2),
          dotProduct (normalize (n1 + n2)) (toVector3f e.1.v1)⟩) ∧
    (∀ e : EdgeId × List Vector3f, (∀ n1 n2 : Vector3f, e.2 ≠ [n1, n2]) →
      bevelOf e = none) := by
  refine ⟨bevelSharpEdges_planes mesh brush, ?_, ?_, edgeMap_mem_iff mesh,
    ?_, ?_⟩
  · have hpw := edgeMap_pw mesh
    rw [List.pairwise_map] at hpw
    refine hpw.imp ?_
    intro a b hlt heq
    rw [heq] at hlt
    exact absurd hlt (by simp [edgeLt_irrefl])
  · intro e he
    exact ⟨edgeMap_val he, edge_key_canonical he⟩
  · intro e n1 n2 h12
    unfold bevelOf
    rw [h12]
  · intro e hne
    unfold bevelOf
    rcases e with ⟨k, l⟩
    match l with
    | [] => rfl
    | [a] => rfl
    | [a, b] => exact absurd rfl (hne a b)
    | a :: b :: c :: t => rfl

/-- Witness for C1 at the one-triangle mesh `triMesh`: its edge from
`(0,0,0)` to `(0,1,0)` has exactly the triangle's normal incident, and its
key is canonically ordered. -/
theorem C1_bevel_edges_witness :
    ([computeNormal triMesh 0 1 2] : List Vector3f) =
      incidentNormals triMesh ⟨⟨0, 0, 0⟩, ⟨0, 1, 0⟩⟩ ∧
    vecLt (⟨0, 1, 0⟩ : Vertex) ⟨0, 0, 0⟩ = false := by
  have happ := (C1_bevel_edges triMesh ⟨[]⟩).2.2.1
    ⟨⟨⟨0, 0, 0⟩, ⟨0, 1, 0⟩⟩, [computeNormal triMesh 0 1 2]⟩
    (by
      rw [show edgeMap triMesh =
        [(⟨⟨0, 0, 0⟩, ⟨0, 1, 0⟩⟩, [computeNormal triMesh 0 1 2]),
         (⟨⟨0, 0, 0⟩, ⟨1, 0, 0⟩⟩, [computeNormal triMesh 0 1 2]),
         (⟨⟨0, 1, 0⟩, ⟨1, 0, 0⟩⟩, [computeNormal triMesh 0 1 2])] from rfl]
      exact List.mem_cons_self _ _)
  exact ⟨happ.1, happ.2⟩

/-- C2: for every mesh classified as collision geometry, the brush builder
appends, per triangle in face order, exactly one plane whose normal is
`normalize(cross(B-A, C-A))` and whose offset is `dot(normal, A)`; the room's
colliders are exactly these brushes (bevel planes appended after the
per-triangle planes). -/
theorem C2_brush_builder (fuel : Nat) (meshes : List Mesh) (r : Room)
    (h : loadRoomF fuel meshes = some (.ok r)) :
    r.colliders = (meshes.filter isCollision).map colliderOf ∧
    ∀ m : Mesh, (colliderOf m).planes =
      m.faces.map (fun f =>
        ⟨computeNormal m f.i1 f.i2 f.i3,
         dotProduct (computeNormal m f.i1 f.i2 f.i3)
           (toVector3f (vtx m f.i1))⟩) ++
      (edgeMap m).filterMap bevelOf := by
  constructor
  · unfold loadRoomF at h
    have h2 := (loadRoomAux_ok fuel meshes _ r h).2.1
    simpa using h2
  · intro m
    unfold colliderOf
    rw [bevelSharpEdges_planes, buildBrush_planes]
    rfl

/-- Witness for C2 at a scene with the single collision triangle `triMesh`. -/
theorem C2_brush_builder_witness :
    loadRoomF 32 [triMesh] =
      some (.ok ⟨⟨0, 0, 2⟩, [colliderOf triMesh], []⟩) ∧
    (⟨⟨0, 0, 2⟩, [colliderOf triMesh], []⟩ : Room).colliders =
      ([triMesh].filter isCollision).map colliderOf :=
  ⟨rfl, (C2_brush_builder 32 [triMesh] ⟨⟨0, 0, 2⟩, [colliderOf triMesh], []⟩
    rfl).1⟩

theorem cn_twoTri_0 : computeNormal twoTriMesh 0 1 2 = ⟨0, 0, 1⟩ := by
  unfold computeNormal
  rw [show crossProduct
      (toVector3f (vtx twoTriMesh 1) - toVector3f (vtx twoTriMesh 0))
      (toVector3f (vtx twoTriMesh 2) - toVector3f (vtx twoTriMesh 0)) =
      ⟨0, 0, 1⟩ from by
    apply vec_ext <;> simp [vtx, twoTriMesh, toVector3f]]
  exact normalize_unit (by unfold magnitude; norm_num [Real.sqrt_one])

theorem cn_twoTri_1 : computeNormal twoTriMesh 0 3 1 = ⟨0, 1, 0⟩ := by
  unfold computeNormal
  rw [show crossProduct
      (toVector3f (vtx twoTriMesh 3) - toVector3f (vtx twoTriMesh 0))
      (toVector3f (vtx twoTriMesh 1) - toVector3f (vtx twoTriMesh 0)) =
      ⟨0, 1, 0⟩ from by
    apply vec_ext <;> simp [vtx, twoTriMesh, toVector3f]]
  exact normalize_unit (by unfold magnitude; norm_num [Real.sqrt_one])

theorem twoTri_bevels :
    (edgeMap twoTriMesh).filterMap bevelOf =
      [⟨normalize ((⟨0, 0, 1⟩ : Vector3f) + ⟨0, 1, 0⟩),
        dotProduct (normalize ((⟨0, 0, 1⟩ : Vector3f) + ⟨0, 1, 0⟩))
          (toVector3f ⟨0, 0, 0⟩)⟩] := by
  rw [show edgeMap twoTriMesh =
    [(⟨⟨0, 0, 0⟩, ⟨0, 0, 1⟩⟩, [computeNormal twoTriMesh 0 3 1]),
     (⟨⟨0, 0, 0⟩, ⟨0, 1, 0⟩⟩, [computeNormal twoTriMesh 0 1 2]),
     (⟨⟨0, 0, 0⟩, ⟨1, 0, 0⟩⟩,
       [computeNormal twoTriMesh 0 1 2, computeNormal twoTriMesh 0 3 1]),
     (⟨⟨0, 0, 1⟩, ⟨1, 0, 0⟩⟩, [computeNormal twoTriMesh 0 3 1]),
     (⟨⟨0, 1, 0⟩, ⟨1, 0, 0⟩⟩, [computeNormal twoTriMesh 0 1 2])] from rfl]
  rw [cn_twoTri_0, cn_twoTri_1]
  simp only [List.filterMap]
  unfold bevelOf
  simp only
  rw [if_neg (by norm_num [dotProduct])]

/-- C3 counterexample: the claim says the `Convex` appended to
`Room.colliders` has exactly one plane per input triangle, but for the
two-triangle mesh `twoTriMesh` (which has a sharp manifold edge) the appended
`Convex` has 3 planes while the mesh has 2 triangles — the edge beveler
appends an extra plane before the brush is pushed. -/
theorem C3_counterexample :
    (loadRoomF 32 [twoTriMesh]).map (Except.map (fun r =>
      r.colliders.map (fun c => c.planes.length))) = some (.ok [3]) ∧
    twoTriMesh.faces.length = 2 := by
  refine ⟨?_, rfl⟩
  rw [show loadRoomF 32 [twoTriMesh] =
    some (.ok ⟨⟨0, 0, 2⟩, [colliderOf twoTriMesh], []⟩) from rfl]
  simp only [Option.map, Except.map, List.map]
  rw [show (colliderOf twoTriMesh).planes =
    twoTriMesh.faces.map (facePlane twoTriMesh) ++
      (edgeMap twoTriMesh).filterMap bevelOf from by
    unfold colliderOf
    rw [bevelSharpEdges_planes, buildBrush_planes]]
  rw [twoTri_bevels]
  rfl

/-- C3 amended: the `Convex` appended to `Room.colliders` for a
collision-geometry mesh has one plane per input triangle (its first
`faces.length` planes, in face order), followed by the bevel planes appended
by the edge beveler; each per-triangle plane satisfies
`dot(normal, v) = offset` for every vertex `v` of its source triangle, and
`|normal| = 1` whenever the triangle is non-degenerate (its edge cross
product is non-zero). -/
theorem C3_amended (fuel : Nat) (meshes : List Mesh) (r : Room)
    (h : loadRoomF fuel meshes = some (.ok r)) :
    r.colliders = (meshes.filter isCollision).map colliderOf ∧
    (∀ m : Mesh,
      (colliderOf m).planes.take m.faces.length = m.faces.map (facePlane m) ∧
      (colliderOf m).planes.length =
        m.faces.length + ((edgeMap m).filterMap bevelOf).length) ∧
    (∀ m : Mesh, ∀ f ∈ m.faces,
      dotProduct (facePlane m f).normal (toVector3f (vtx m f.i1)) =
        (facePlane m f).offset ∧
      dotProduct (facePlane m f).normal (toVector3f (vtx m f.i2)) =
        (facePlane m f).offset ∧
      dotProduct (facePlane m f).normal (toVector3f (vtx m f.i3)) =
        (facePlane m f).offset ∧
      (crossProduct (toVector3f (vtx m f.i2) - toVector3f (vtx m f.i1))
          (toVector3f (vtx m f.i3) - toVector3f (vtx m f.i1)) ≠ ⟨0, 0, 0⟩ →
        magnitude (facePlane m f).normal = 1)) := by
  have key : ∀ A B C : Vector3f,
      dotProduct (normalize (crossProduct (B - A) (C - A))) B =
        dotProduct (normalize (crossProduct (B - A) (C - A))) A := by
    intro A B C
    rw [dotProduct_normalize, dotProduct_normalize]
    congr 1
    unfold dotProduct crossProduct
    simp only [vsub_x, vsub_y, vsub_z]
    ring
  have key2 : ∀ A B C : Vector3f,
      dotProduct (normalize (crossProduct (B - A) (C - A))) C =
        dotProduct (normalize (crossProduct (B - A) (C - A))) A := by
    intro A B C
    rw [dotProduct_normalize, dotProduct_normalize]
    congr 1
    unfold dotProduct crossProduct
    simp only [vsub_x, vsub_y, vsub_z]
    ring
  refine ⟨?_, ?_, ?_⟩
  · unfold loadRoomF at h
    simpa using (loadRoomAux_ok fuel meshes _ r h).2.1
  · intro m
    have hpl : (colliderOf m).planes =
        m.faces.map (facePlane m) ++ (edgeMap m).filterMap bevelOf := by
      unfold colliderOf
      rw [bevelSharpEdges_planes, buildBrush_planes]
    constructor
    · rw [hpl, show m.faces.length = (m.faces.map (facePlane m)).length from
        (List.length_map _ _).symm, List.take_left]
    · rw [hpl]
      simp
  · intro m f _
    refine ⟨rfl, key _ _ _, key2 _ _ _, ?_⟩
    intro hcr
    apply magnitude_normalize
    apply sumsq_ne_zero
    intro ⟨hx, hy, hz⟩
    exact hcr (vec_ext hx hy hz)

/-- Witness for C3 amended at `twoTriMesh`: the appended brush has its two
triangle planes first, and the first triangle's plane has a unit normal. -/
theorem C3_amended_witness :
    (colliderOf twoTriMesh).planes.take twoTriMesh.faces.length =
      twoTriMesh.faces.map (facePlane twoTriMesh) ∧
    magnitude (facePlane twoTriMesh ⟨0, 1, 2⟩).normal = 1 := by
  have happ := C3_amended 32 [twoTriMesh]
    ⟨⟨0, 0, 2⟩, [colliderOf twoTriMesh], []⟩ rfl
  refine ⟨(happ.2.1 twoTriMesh).1, ?_⟩
  refine (happ.2.2 twoTriMesh ⟨0, 1, 2⟩ (by simp [twoTriMesh])).2.2.2 ?_
  rw [show crossProduct
      (toVector3f (vtx twoTriMesh 1) - toVector3f (vtx twoTriMesh 0))
      (toVector3f (vtx twoTriMesh 2) - toVector3f (vtx twoTriMesh 0)) =
      ⟨0, 0, 1⟩ from by
    apply vec_ext <;> simp [vtx, twoTriMesh, toVector3f]]
  intro hc
  have := congrArg Vector3f.z hc
  norm_num at this

/-- C4 counterexample: with two `f.start` meshes (`f.start` at `(1,1,1)` and
`f.start.b` at `(5,6,7)`), `Room.start` is the position of the SECOND mesh,
not the first: the claim that the first mesh wins and later ones have no
effect is false. -/
theorem C4_counterexample :
    (loadRoomF 9 [startMeshA, startMeshB]).map (Except.map Room.start) =
      some (.ok ⟨5, 6, 7⟩) ∧
    (⟨5, 6, 7⟩ : Vector3i) ≠ ⟨1, 1, 1⟩ ∧
    nameStarts startMeshA.name "f.start" = true ∧
    nameStarts startMeshB.name "f.start" = true ∧
    startMeshA.vertices ≠ [] ∧ startMeshB.vertices ≠ [] ∧
    startOf startMeshA = ⟨1, 1, 1⟩ :=
  ⟨rfl, by decide, rfl, rfl, by decide, by decide, rfl⟩

/-- C4 amended: `Room.start` is determined by the LAST `f.start` mesh in
iteration order — each `f.start` mesh with vertices overwrites the spawn
point with the (truncated) position of the first vertex of its first
triangle, so earlier `f.start` meshes have no effect on the final value. -/
theorem C4_amended (fuel : Nat) (meshes : List Mesh) (r : Room)
    (h : loadRoomF fuel meshes = some (.ok r)) :
    r.start = startFold meshes ⟨0, 0, 2⟩ := by
  unfold loadRoomF at h
  exact (loadRoomAux_ok fuel meshes _ r h).1

/-- Witness for C4 amended at the two-spawn-marker scene. -/
theorem C4_amended_witness :
    (⟨⟨5, 6, 7⟩, [], []⟩ : Room).start =
      startFold [startMeshA, startMeshB] ⟨0, 0, 2⟩ :=
  C4_amended 9 [startMeshA, startMeshB] ⟨⟨5, 6, 7⟩, [], []⟩ rfl

/-- C5: `parseFormula` returns the first token of `parseCall`'s result as the
type name and a config mapping `to_string(i)` to the `(i+1)`-th token for
each remaining token in order (stated by lookup: the key `Nat.repr j` maps to
argument `j`, and the map has exactly one entry per argument); in particular
`parseFormula("door(3)")` yields `("door", {"0": "3"})` and
`parseFormula("crate")` yields `("crate", {})`. -/
theorem C5_parseFormula :
    (∀ (fuel : Nat) (f t : String) (args : List String),
      parseCallF fuel f.toList = some (.ok (t :: args)) →
      parseFormulaF fuel f = some (.ok (t, configFold 0 args [])) ∧
      (configFold 0 args []).length = args.length ∧
      (∀ j, j < args.length →
        lookupStr (Nat.repr j) (configFold 0 args []) =
          some (args.getD j ""))) ∧
    parseFormulaF 32 "door(3)" = some (.ok ("door", [("0", "3")])) ∧
    parseFormulaF 32 "crate" = some (.ok ("crate", [])) := by
  refine ⟨?_, rfl, rfl⟩
  intro fuel f t args hcall
  refine ⟨?_, ?_, ?_⟩
  · unfold parseFormulaF
    rw [hcall]
    rfl
  · rw [configFold_length args 0 [] (by simp) (by simp)]
    simp
  · intro j hj
    have hg := configFold_get args 0 [] j hj
    simpa using hg

/-- Witness for C5 at `pair(a,b)`: the second argument is found under key
`"1"`. -/
theorem C5_parseFormula_witness :
    parseFormulaF 32 "pair(a,b)" =
      some (.ok ("pair", configFold 0 ["a", "b"] [])) ∧
    lookupStr (Nat.repr 1) (configFold 0 ["a", "b"] []) = some "b" :=
  ⟨(C5_parseFormula.1 32 "pair(a,b)" "pair" ["a", "b"] rfl).1,
   (C5_parseFormula.1 32 "pair(a,b)" "pair" ["a", "b"] rfl).2.2 1
     (by decide)⟩

/-- C6 counterexample: the mesh named `f.door x(3` has an `'('` in its
formula text that is never matched by `')'`, yet `loadRoom` succeeds and
returns a Room with a truncated `Thing` (`typeName "door"`, empty config):
the parser stops the identifier scan at the space and ignores the rest, so no
parse error is raised. -/
theorem C6_counterexample :
    (loadRoomF 32 [spaceParenMesh]).map (Except.map (fun r =>
      r.things.map (fun t => (t.typeName, t.config)))) =
      some (.ok [("door", [])]) ∧
    '(' ∈ spaceParenMesh.name.toList ∧
    ')' ∉ spaceParenMesh.name.toList ∧
    nameStarts spaceParenMesh.name "f." = true ∧
    spaceParenMesh.vertices ≠ [] :=
  ⟨rfl, by decide, by decide, rfl, by decide⟩

/-- C6 amended: for every scene containing a non-empty `f.`-prefixed mesh (on
the entity-placement path) whose formula text consists of an identifier
directly followed by `'('` and a tail containing neither `')'` nor `'"'`,
`loadRoom` fails with a parse error rather than returning a Room: every
result the load produces is a thrown parse error (the only error source in
the loader is the formula parser), it never returns a Room, and the
offending formula's parse itself terminates with the parse error
`expected comma` for every fuel bound of at least the tail length plus two —
the argument-list loop reaches the end of the text and `expect(',')` throws.
(The identifier-prefix condition is needed because the parser silently
ignores everything after the identifier when `'('` does not immediately
follow it, and the no-quote condition because an unterminated quoted string
makes the parser diverge instead of raising.) -/
theorem C6_amended (fuel : Nat) (meshes : List Mesh) (m : Mesh)
    (hm : m ∈ meshes) (hthing : isThing m = true)
    (id rest : List Char)
    (hname : m.name.toList.drop 2 = id ++ '(' :: rest)
    (hid : ∀ c ∈ id, identChar c = true)
    (hrest : ∀ c ∈ rest, c ≠ ')' ∧ c ≠ '"') :
    (∀ res : Except String Room, loadRoomF fuel meshes = some res →
      ∃ e, res = Except.error e) ∧
    (∀ r : Room, loadRoomF fuel meshes ≠ some (.ok r)) ∧
    (∀ fuel2 : Nat, rest.length + 2 ≤ fuel2 →
      parseCallF fuel2 (id ++ '(' :: rest) =
        some (.error "expected comma") ∧
      parseFormulaF fuel2 (⟨m.name.toList.drop 2⟩ : String) =
        some (.error "expected comma")) := by
  have herr : ∀ res : Except String Room, loadRoomF fuel meshes = some res →
      ∃ e, res = Except.error e := by
    intro res hres
    unfold loadRoomF at hres
    exact loadRoomAux_err meshes fuel _ m hm hthing id rest hname hid hrest
      res hres
  refine ⟨herr, ?_, ?_⟩
  · intro r hr
    obtain ⟨e, he⟩ := herr (.ok r) hr
    exact Except.noConfusion he
  · intro fuel2 hfuel2
    have hcall := parseCallF_err fuel2 id rest hid hrest hfuel2
    refine ⟨hcall, ?_⟩
    rw [parseFormulaF_name fuel2 m id rest hname, hcall]
    rfl

/-- Witness for C6 amended at the single-mesh scene `f.door(3`: the load
terminates with the parse error (shown by direct evaluation at fuel 32),
that result is an error, the parse of `door(3` raises `expected comma`, and
no Room is returned. -/
theorem C6_amended_witness :
    loadRoomF 32 [badParenMesh] = some (.error "expected comma") ∧
    (∃ e, (Except.error "expected comma" : Except String Room) =
      Except.error e) ∧
    parseCallF 32 ("door".toList ++ '(' :: "3".toList) =
      some (.error "expected comma") ∧
    loadRoomF 32 [badParenMesh] ≠ some (.ok ⟨⟨0, 0, 2⟩, [], []⟩) :=
  ⟨rfl,
   (C6_amended 32 [badParenMesh] badParenMesh (by decide) (by decide)
      "door".toList "3".toList (by decide) (by decide) (by decide)).1
     (.error "expected comma") rfl,
   ((C6_amended 32 [badParenMesh] badParenMesh (by decide) (by decide)
      "door".toList "3".toList (by decide) (by decide) (by decide)).2.2 32
     (by decide)).1,
   (C6_amended 32 [badParenMesh] badParenMesh (by decide) (by decide)
      "door".toList "3".toList (by decide) (by decide) (by decide)).2.1
     ⟨⟨0, 0, 2⟩, [], []⟩⟩

/-- C7 (evaluating the code at the failing input): on the input `x("abc`,
whose quoted string is never terminated, `parseCall` does not terminate — for
every fuel bound the fueled model runs out of fuel, because the scan loop of
`parseString` stops advancing at the end of the stream; consequently
`loadRoom` on a scene containing the mesh `f.x("abc` also fails to terminate,
contradicting the claim that every load either completes or fails outright. -/
theorem C7_parse_divergence :
    (∀ fuel : Nat, parseCallF fuel "x(\"abc".toList = none) ∧
    (∀ fuel : Nat, loadRoomF fuel [hangMesh] = none) := by
  refine ⟨parseCallF_hang, ?_⟩
  intro fuel
  unfold loadRoomF
  have hstep : loadRoomAux fuel ⟨⟨0, 0, 2⟩, [], []⟩ [hangMesh] =
      match processMesh fuel ⟨⟨0, 0, 2⟩, [], []⟩ hangMesh with
      | none => none
      | some (.error e) => some (.error e)
      | some (.ok r2) => loadRoomAux fuel r2 [] := rfl
  rw [hstep, loadRoomF_hang_aux fuel ⟨⟨0, 0, 2⟩, [], []⟩]

/-- C9: for every non-empty mesh on the entity-placement path (name starts
with `f.` but not `f.start`, and not `nocollide.`), exactly one `Thing` is
appended to `Room.things`, whose position is the arithmetic mean of all the
mesh's vertex positions and whose type name and config come from parsing the
name with its first two characters removed; and no `Convex` is produced for
such a mesh (the colliders come only from collision-classified meshes). -/
theorem C9_things (fuel : Nat) (meshes : List Mesh) (r : Room)
    (h : loadRoomF fuel meshes = some (.ok r)) :
    r.things = meshes.filterMap (thingOfF fuel) ∧
    r.colliders = (meshes.filter isCollision).map colliderOf ∧
    ∀ m ∈ meshes, isThing m = true →
      ∃ tc, parseFormulaF fuel (⟨m.name.toList.drop 2⟩ : String) =
          some (.ok tc) ∧
        thingOfF fuel m = some ⟨meanPos m, tc.1, tc.2⟩ := by
  unfold loadRoomF at h
  obtain ⟨_, h2, h3, h4⟩ := loadRoomAux_ok fuel meshes _ r h
  refine ⟨by simpa using h3, by simpa using h2, ?_⟩
  intro m hm ht
  obtain ⟨tc, htc⟩ := h4 m hm ht
  refine ⟨tc, htc, ?_⟩
  unfold thingOfF
  rw [if_pos ht, htc]

/-- Witness for C9 at the single mesh `f.door(3)`. -/
theorem C9_things_witness :
    loadRoomF 32 [doorMesh] =
      some (.ok ⟨⟨0, 0, 2⟩, [],
        [⟨meanPos doorMesh, "door", [("0", "3")]⟩]⟩) ∧
    (⟨⟨0, 0, 2⟩, [], [⟨meanPos doorMesh, "door", [("0", "3")]⟩]⟩ :
      Room).things = [doorMesh].filterMap (thingOfF 32) :=
  ⟨rfl, (C9_things 32 [doorMesh]
    ⟨⟨0, 0, 2⟩, [], [⟨meanPos doorMesh, "door", [("0", "3")]⟩]⟩ rfl).1⟩

/-- C10: if a scene contains no mesh with at least one vertex whose name
starts with `f.start`, `loadRoom` returns `Room.start` equal to the default
spawn position `(0, 0, 2)`. -/
theorem C10_default_start (fuel : Nat) (meshes : List Mesh) (r : Room)
    (h : loadRoomF fuel meshes = some (.ok r))
    (hno : ∀ m ∈ meshes, isStart m = false) :
    r.start = ⟨0, 0, 2⟩ := by
  unfold loadRoomF at h
  rw [(loadRoomAux_ok fuel meshes _ r h).1, startFold_id meshes _ hno]

/-- Witness for C10 at a scene with an entity mesh and a collision mesh but
no spawn marker. -/
theorem C10_default_start_witness :
    (∀ m ∈ [doorMesh, triMesh], isStart m = false) ∧
    (⟨⟨0, 0, 2⟩, [colliderOf triMesh],
      [⟨meanPos doorMesh, "door", [("0", "3")]⟩]⟩ : Room).start =
      ⟨0, 0, 2⟩ :=
  ⟨by decide, C10_default_start 32 [doorMesh, triMesh]
    ⟨⟨0, 0, 2⟩, [colliderOf triMesh],
      [⟨meanPos doorMesh, "door", [("0", "3")]⟩]⟩ rfl (by decide)⟩

theorem cn_cube_0 : computeNormal cubeMesh 0 1 3 = ⟨0, 0, 1⟩ := by
  unfold computeNormal
  rw [show crossProduct
      (toVector3f (vtx cubeMesh 1) - toVector3f (vtx cubeMesh 0))
      (toVector3f (vtx cubeMesh 3) - toVector3f (vtx cubeMesh 0)) =
      ⟨0, 0, 1⟩ from by
    apply vec_ext <;> simp [vtx, cubeMesh, toVector3f]]
  exact normalize_unit (by unfold magnitude; norm_num [Real.sqrt_one])

theorem cn_cube_1 : computeNormal cubeMesh 0 3 2 = ⟨0, 0, 1⟩ := by
  unfold computeNormal
  rw [show crossProduct
      (toVector3f (vtx cubeMesh 3) - toVector3f (vtx cubeMesh 0))
      (toVector3f (vtx cubeMesh 2) - toVector3f (vtx cubeMesh 0)) =
      ⟨0, 0, 1⟩ from by
    apply vec_ext <;> simp [vtx, cubeMesh, toVector3f]]
  exact normalize_unit (by unfold magnitude; norm_num [Real.sqrt_one])

theorem cn_cube_2 : computeNormal cubeMesh 4 6 7 = ⟨0, 0, -1⟩ := by
  unfold computeNormal
  rw [show crossProduct
      (toVector3f (vtx cubeMesh 6) - toVector3f (vtx cubeMesh 4))
      (toVector3f (vtx cubeMesh 7) - toVector3f (vtx cubeMesh 4)) =
      ⟨0, 0, -1⟩ from by
    apply vec_ext <;> simp [vtx, cubeMesh, toVector3f]]
  exact normalize_unit (by unfold magnitude; norm_num [Real.sqrt_one])

theorem cn_cube_3 : computeNormal cubeMesh 4 7 5 = ⟨0, 0, -1⟩ := by
  unfold computeNormal
  rw [show crossProduct
      (toVector3f (vtx cubeMesh 7) - toVector3f (vtx cubeMesh 4))
      (toVector3f (vtx cubeMesh 5) - toVector3f (vtx cubeMesh 4)) =
      ⟨0, 0, -1⟩ from by
    apply vec_ext <;> simp [vtx, cubeMesh, toVector3f]]
  exact normalize_unit (by unfold magnitude; norm_num [Real.sqrt_one])

theorem cn_cube_4 : computeNormal cubeMesh 0 4 5 = ⟨0, 1, 0⟩ := by
  unfold computeNormal
  rw [show crossProduct
      (toVector3f (vtx cubeMesh 4) - toVector3f (vtx cubeMesh 0))
      (toVector3f (vtx cubeMesh 5) - toVector3f (vtx cubeMesh 0)) =
      ⟨0, 1, 0⟩ from by
    apply vec_ext <;> simp [vtx, cubeMesh, toVector3f]]
  exact normalize_unit (by unfold magnitude; norm_num [Real.sqrt_one])

theorem cn_cube_5 : computeNormal cubeMesh 0 5 1 = ⟨0, 1, 0⟩ := by
  unfold computeNormal
  rw [show crossProduct
      (toVector3f (vtx cubeMesh 5) - toVector3f (vtx cubeMesh 0))
      (toVector3f (vtx cubeMesh 1) - toVector3f (vtx cubeMesh 0)) =
      ⟨0, 1, 0⟩ from by
    apply vec_ext <;> simp [vtx, cubeMesh, toVector3f]]
  exact normalize_unit (by unfold magnitude; norm_num [Real.sqrt_one])

theorem cn_cube_6 : computeNormal cubeMesh 2 3 7 = ⟨0, -1, 0⟩ := by
  unfold computeNormal
  rw [show crossProduct
      (toVector3f (vtx cubeMesh 3) - toVector3f (vtx cubeMesh 2))
      (toVector3f (vtx cubeMesh 7) - toVector3f (vtx cubeMesh 2)) =
      ⟨0, -1, 0⟩ from by
    apply vec_ext <;> simp [vtx, cubeMesh, toVector3f]]
  exact normalize_unit (by unfold magnitude; norm_num [Real.sqrt_one])

theorem cn_cube_7 : computeNormal cubeMesh 2 7 6 = ⟨0, -1, 0⟩ := by
  unfold computeNormal
  rw [show crossProduct
      (toVector3f (vtx cubeMesh 7) - toVector3f (vtx cubeMesh 2))
      (toVector3f (vtx cubeMesh 6) - toVector3f (vtx cubeMesh 2)) =
      ⟨0, -1, 0⟩ from by
    apply vec_ext <;> simp [vtx, cubeMesh, toVector3f]]
  exact normalize_unit (by unfold magnitude; norm_num [Real.sqrt_one])

theorem cn_cube_8 : computeNormal cubeMesh 0 2 6 = ⟨1, 0, 0⟩ := by
  unfold computeNormal
  rw [show crossProduct
      (toVector3f (vtx cubeMesh 2) - toVector3f (vtx cubeMesh 0))
      (toVector3f (vtx cubeMesh 6) - toVector3f (vtx cubeMesh 0)) =
      ⟨1, 0, 0⟩ from by
    apply vec_ext <;> simp [vtx, cubeMesh, toVector3f]]
  exact normalize_unit (by unfold magnitude; norm_num [Real.sqrt_one])

theorem cn_cube_9 : computeNormal cubeMesh 0 6 4 = ⟨1, 0, 0⟩ := by
  unfold computeNormal
  rw [show crossProduct
      (toVector3f (vtx cubeMesh 6) - toVector3f (vtx cubeMesh 0))
      (toVector3f (vtx cubeMesh 4) - toVector3f (vtx cubeMesh 0)) =
      ⟨1, 0, 0⟩ from by
    apply vec_ext <;> simp [vtx, cubeMesh, toVector3f]]
  exact normalize_unit (by unfold magnitude; norm_num [Real.sqrt_one])

theorem cn_cube_10 : computeNormal cubeMesh 1 5 7 = ⟨-1, 0, 0⟩ := by
  unfold computeNormal
  rw [show crossProduct
      (toVector3f (vtx cubeMesh 5) - toVector3f (vtx cubeMesh 1))
      (toVector3f (vtx cubeMesh 7) - toVector3f (vtx cubeMesh 1)) =
      ⟨-1, 0, 0⟩ from by
    apply vec_ext <;> simp [vtx, cubeMesh, toVector3f]]
  exact normalize_unit (by unfold magnitude; norm_num [Real.sqrt_one])

theorem cn_cube_11 : computeNormal cubeMesh 1 7 3 = ⟨-1, 0, 0⟩ := by
  unfold computeNormal
  rw [show crossProduct
      (toVector3f (vtx cubeMesh 7) - toVector3f (vtx cubeMesh 1))
      (toVector3f (vtx cubeMesh 3) - toVector3f (vtx cubeMesh 1)) =
      ⟨-1, 0, 0⟩ from by
    apply vec_ext <;> simp [vtx, cubeMesh, toVector3f]]
  exact normalize_unit (by unfold magnitude; norm_num [Real.sqrt_one])

theorem cube_edgeMap : edgeMap cubeMesh =
    [(⟨⟨0, 0, 0⟩, ⟨0, 0, 1⟩⟩,
       [computeNormal cubeMesh 0 4 5, computeNormal cubeMesh 0 6 4]),
     (⟨⟨0, 0, 0⟩, ⟨0, 1, 0⟩⟩,
       [computeNormal cubeMesh 0 3 2, computeNormal cubeMesh 0 2 6]),
     (⟨⟨0, 0, 0⟩, ⟨0, 1, 1⟩⟩,
       [computeNormal cubeMesh 0 2 6, computeNormal cubeMesh 0 6 4]),
     (⟨⟨0, 0, 0⟩, ⟨1, 0, 0⟩⟩,
       [computeNormal cubeMesh 0 1 3, computeNormal cubeMesh 0 5 1]),
     (⟨⟨0, 0, 0⟩, ⟨1, 0, 1⟩⟩,
       [computeNormal cubeMesh 0 4 5, computeNormal cubeMesh 0 5 1]),
     (⟨⟨0, 0, 0⟩, ⟨1, 1, 0⟩⟩,
       [computeNormal cubeMesh 0 1 3, computeNormal cubeMesh 0 3 2]),
     (⟨⟨0, 0, 1⟩, ⟨0, 1, 1⟩⟩,
       [computeNormal cubeMesh 4 6 7, computeNormal cubeMesh 0 6 4]),
     (⟨⟨0, 0, 1⟩, ⟨1, 0, 1⟩⟩,
       [computeNormal cubeMesh 4 7 5, computeNormal cubeMesh 0 4 5]),
     (⟨⟨0, 0, 1⟩, ⟨1, 1, 1⟩⟩,
       [computeNormal cubeMesh 4 6 7, computeNormal cubeMesh 4 7 5]),
     (⟨⟨0, 1, 0⟩, ⟨0, 1, 1⟩⟩,
       [computeNormal cubeMesh 2 7 6, computeNormal cubeMesh 0 2 6]),
     (⟨⟨0, 1, 0⟩, ⟨1, 1, 0⟩⟩,
       [computeNormal cubeMesh 0 3 2, computeNormal cubeMesh 2 3 7]),
     (⟨⟨0, 1, 0⟩, ⟨1, 1, 1⟩⟩,
       [computeNormal cubeMesh 2 3 7, computeNormal cubeMesh 2 7 6]),
     (⟨⟨0, 1, 1⟩, ⟨1, 1, 1⟩⟩,
       [computeNormal cubeMesh 4 6 7, computeNormal cubeMesh 2 7 6]),
     (⟨⟨1, 0, 0⟩, ⟨1, 0, 1⟩⟩,
       [computeNormal cubeMesh 0 5 1, computeNormal cubeMesh 1 5 7]),
     (⟨⟨1, 0, 0⟩, ⟨1, 1, 0⟩⟩,
       [computeNormal cubeMesh 0 1 3, computeNormal cubeMesh 1 7 3]),
     (⟨⟨1, 0, 0⟩, ⟨1, 1, 1⟩⟩,
       [computeNormal cubeMesh 1 5 7, computeNormal cubeMesh 1 7 3]),
     (⟨⟨1, 0, 1⟩, ⟨1, 1, 1⟩⟩,
       [computeNormal cubeMesh 4 7 5, computeNormal cubeMesh 1 5 7]),
     (⟨⟨1, 1, 0⟩, ⟨1, 1, 1⟩⟩,
       [computeNormal cubeMesh 2 3 7, computeNormal cubeMesh 1 7 3])] := rfl

theorem cube_bevel_count :
    ((edgeMap cubeMesh).filterMap bevelOf).length = 12 := by
  rw [cube_edgeMap, cn_cube_0, cn_cube_1, cn_cube_2, cn_cube_3, cn_cube_4, cn_cube_5, cn_cube_6, cn_cube_7, cn_cube_8, cn_cube_9, cn_cube_10, cn_cube_11]
  simp only [List.filterMap, bevelOf]
  norm_num [dotProduct]

/-- C8: for the unit cube mesh of 12 triangles (6 quads each split into 2
coplanar triangles), `bevelSharpEdges` appends exactly 12 planes: the edge
index has 18 undirected edges, each with exactly 2 incident faces; the 12
cube edges qualify (`dot(N1,N2) = 0 <= 0`) and the 6 face-diagonal edges do
not (`dot(N1,N2) = 1 > 0`), so exactly 12 bevel planes are appended. -/
theorem C8_cube_bevel :
    (bevelSharpEdges cubeMesh ⟨[]⟩).planes.length = 12 ∧
    ((edgeMap cubeMesh).filterMap bevelOf).length = 12 ∧
    (edgeMap cubeMesh).length = 18 ∧
    (∀ e ∈ edgeMap cubeMesh, e.2.length = 2) ∧
    cubeMesh.faces.length = 12 := by
  refine ⟨?_, cube_bevel_count, by rw [cube_edgeMap]; rfl, ?_, rfl⟩
  · rw [bevelSharpEdges_planes]
    simp [cube_bevel_count]
  · rw [cube_edgeMap]
    intro e he
    fin_cases he <;> rfl

/-- Witness for C8 at a concrete cube edge: the edge from `(0,0,0)` to
`(0,0,1)` has exactly 2 incident faces. -/
theorem C8_cube_bevel_witness :
    ((⟨⟨0, 0, 0⟩, ⟨0, 0, 1⟩⟩,
      [computeNormal cubeMesh 0 4 5, computeNormal cubeMesh 0 6 4]) :
      EdgeId × List Vector3f).2.length = 2 :=
  C8_cube_bevel.2.2.2.1 _ (by rw [cube_edgeMap]; exact List.mem_cons_self _ _)

end Coiil
